import Mathlib

/-!
# upload-files: a verification development for `server.js`

The service is an Express application with three routes (list, download,
upload) behind a shared-secret middleware.  This file embeds the handlers of
`server.js` as pure functions over an explicit file-system state and proves
properties of them.

Strings are lists of characters.  The file system is a finite table from
absolute normalised paths to nodes; what the operating system decides beyond
the table (an error of `fs.rename` for a cause the table does not record, the
order in which a directory is enumerated) is a parameter, `Host`.  Library
calls (`path`, `fs`, `cors`, `express.json`, `multer`) are modelled by the
definitions of the first sections, each with a comment naming the library
behaviour it stands for; the multipart parser's reading of a declared type and
the table of `mime.lookup` are parameters.
-/

namespace UploadFiles

set_option maxRecDepth 100000

/-- Strings of the program, as lists of characters. -/
abbrev Str := List Char

/-! ## The POSIX `path` module of Node -/

/-- Split a path at every `/` (the result is never empty). -/
def splitSlash : Str → List Str
  | [] => [[]]
  | c :: cs =>
    if c = '/' then [] :: splitSlash cs
    else
      match splitSlash cs with
      | s :: ss => (c :: s) :: ss
      | [] => [[c]]

/-- Concatenate segments with a `/` between consecutive ones. -/
def joinSlash : List Str → Str
  | [] => []
  | [s] => s
  | s :: t :: r => s ++ '/' :: joinSlash (t :: r)

/-- The segment pass of Node's `normalizeString`: empty segments and `.` are
dropped, `..` removes the segment before it; above the root `..` is dropped
for absolute paths and kept when `allowAboveRoot` is set.  `acc` is the stack
of segments kept so far, innermost first. -/
def normalizeSegs (allowAboveRoot : Bool) : List Str → List Str → List Str
  | acc, [] => acc.reverse
  | acc, seg :: rest =>
    if seg = [] ∨ seg = ['.'] then normalizeSegs allowAboveRoot acc rest
    else if seg = ['.', '.'] then
      match acc with
      | top :: below =>
        if top = ['.', '.'] then
          normalizeSegs allowAboveRoot (if allowAboveRoot then seg :: acc else acc) rest
        else normalizeSegs allowAboveRoot below rest
      | [] => normalizeSegs allowAboveRoot (if allowAboveRoot then [seg] else []) rest
    else normalizeSegs allowAboveRoot (seg :: acc) rest

/-- Node's `normalizeString(path, allowAboveRoot, '/', isPosixPathSeparator)`. -/
def normalizeString (path : Str) (allowAboveRoot : Bool) : Str :=
  joinSlash (normalizeSegs allowAboveRoot [] (splitSlash path))

/-- Node's `path.posix.normalize`. -/
def normalize (path : Str) : Str :=
  if path = [] then ['.']
  else
    let isAbsolute : Bool := path.head? = some '/'
    let trailingSeparator : Bool := path.getLast? = some '/'
    let p := normalizeString path (!isAbsolute)
    if p = [] then
      if isAbsolute then ['/'] else if trailingSeparator then ['.', '/'] else ['.']
    else
      let q := if trailingSeparator then p ++ ['/'] else p
      if isAbsolute then '/' :: q else q

/-- Node's `path.posix.join` at two arguments: empty arguments are skipped,
the others are concatenated with `/` and the result is normalised. -/
def join (a b : Str) : Str :=
  if a = [] then (if b = [] then ['.'] else normalize b)
  else if b = [] then normalize a
  else normalize (a ++ '/' :: b)

/-- Node's `path.posix.resolve` at one argument, `cwd` being `process.cwd()`. -/
def resolve (cwd p : Str) : Str :=
  let r0 : Str := if p = [] then [] else p ++ ['/']
  let abs0 : Bool := p.head? = some '/'
  let r : Str := if abs0 then r0 else if cwd = [] then r0 else cwd ++ '/' :: r0
  let resolvedAbsolute : Bool := if abs0 then true else if cwd = [] then false else cwd.head? = some '/'
  let n := normalizeString r (!resolvedAbsolute)
  if resolvedAbsolute then '/' :: n else if n = [] then ['.'] else n

/-- Node's `path.posix.basename` without suffix: scanning from the end,
trailing separators are skipped and the characters up to the next separator
are the result. -/
def basename (path : Str) : Str :=
  ((path.reverse.dropWhile (fun c => c == '/')).takeWhile (fun c => c != '/')).reverse

/-! ## JavaScript helpers -/

/-- The value of `v || d` for a string-or-undefined `v`: the empty string is falsy. -/
def jsOr (v : Option Str) (d : Str) : Str :=
  match v with
  | some s => if s = [] then d else s
  | none => d

/-- The characters matched by `\s` in a JavaScript regular expression. -/
def isWhiteSpace (c : Char) : Bool :=
  let n := c.toNat
  n = 9 ∨ n = 10 ∨ n = 11 ∨ n = 12 ∨ n = 13 ∨ n = 32 ∨ n = 0xa0 ∨ n = 0x1680 ∨
  (0x2000 ≤ n ∧ n ≤ 0x200a) ∨ n = 0x2028 ∨ n = 0x2029 ∨ n = 0x202f ∨ n = 0x205f ∨
  n = 0x3000 ∨ n = 0xfeff

/-- The scan of `s.replace(/\s+/g, '_')`; `inRun` tells that the previous
character was white space, whose run has already produced its underscore. -/
def replaceRuns : Bool → Str → Str
  | _, [] => []
  | inRun, c :: cs =>
    if isWhiteSpace c then
      if inRun then replaceRuns true cs else '_' :: replaceRuns true cs
    else c :: replaceRuns false cs

/-- The value of `s.replace(/\s+/g, '_')`. -/
def replaceWhitespace (s : Str) : Str := replaceRuns false s

/-- The template value of a non-negative integer such as `Date.now()`. -/
def numberToString (n : Nat) : Str := Nat.toDigits 10 n

/-! ## Configuration (lines 11-15) -/

/-- The part of the process environment the service reads. -/
structure ProcessEnv where
  /-- Result of `process.cwd()`. -/
  cwd : Str
  FILES_DIR : Option Str
  TMP_DIR : Option Str
  API_KEY : Option Str
  /-- The numeric value of the variable `MAX_UPLOAD` when it is set. -/
  MAX_UPLOAD : Option Nat

/-- Line 12. -/
def FILES_DIR (env : ProcessEnv) : Str :=
  resolve env.cwd (jsOr env.FILES_DIR (join env.cwd "files".toList))

/-- Line 13. -/
def TMP_DIR (env : ProcessEnv) : Str :=
  resolve env.cwd (jsOr env.TMP_DIR (join env.cwd "tmp".toList))

/-- Line 14. -/
def API_KEY (env : ProcessEnv) : Str :=
  jsOr env.API_KEY "dev-key".toList

/-- Line 15. -/
def MAX_UPLOAD (env : ProcessEnv) : Nat :=
  match env.MAX_UPLOAD with
  | some n => n
  | none => 50 * 1024 * 1024

/-! ## File system -/

/-- A file-system node: a regular file with its bytes and modification time,
or a directory. -/
inductive Node where
  | file (content : List Nat) (mtimeMs : Nat)
  | dir
  deriving DecidableEq, Repr

/-- The file-system state: absolute normalised paths and their nodes. -/
abbrev FS := List (Str × Node)

/-- The node stored at a path, if any. -/
def lookup : FS → Str → Option Node
  | [], _ => none
  | (q, n) :: rest, p => if q = p then some n else lookup rest p

/-- Node's `fs.existsSync`. -/
def existsSync (fs : FS) (p : Str) : Bool := (lookup fs p).isSome

/-- A name that can be a directory entry: not empty, not `.` or `..`, no `/`. -/
def ProperSegment (s : Str) : Prop := s ≠ [] ∧ s ≠ ['.'] ∧ s ≠ ['.', '.'] ∧ '/' ∉ s

instance (s : Str) : Decidable (ProperSegment s) :=
  inferInstanceAs (Decidable (s ≠ [] ∧ s ≠ ['.'] ∧ s ≠ ['.', '.'] ∧ '/' ∉ s))

/-- An absolute normalised path, as `path.resolve` returns: a `/` followed by
proper segments with a `/` between them. -/
def Resolved (dir : Str) : Prop :=
  ∃ segs : List Str, (∀ s ∈ segs, ProperSegment s) ∧ dir = '/' :: joinSlash segs

/-- The path of the directory that holds `p`. -/
def parentPath (p : Str) : Str := join p ['.', '.']

/-- Every entry of the file system lies in a directory of the file system. -/
def WellFormed (fs : FS) : Prop := ∀ e ∈ fs, lookup fs (parentPath e.1) = some Node.dir

instance (fs : FS) : Decidable (WellFormed fs) :=
  inferInstanceAs (Decidable (∀ e ∈ fs, lookup fs (parentPath e.1) = some Node.dir))

/-- The path of the entry `name` of the directory `dir`. -/
def childPath (dir name : Str) : Str :=
  if dir = ['/'] then '/' :: name else dir ++ '/' :: name

/-- Remove the leading string `pre` from `s`, if `s` starts with it. -/
def stripLeading : Str → Str → Option Str
  | [], s => some s
  | _ :: _, [] => none
  | c :: cs, d :: ds => if c = d then stripLeading cs ds else none

/-- The entry name of `p` in the directory `dir`, when `p` is a direct child of it. -/
def childName (dir p : Str) : Option Str :=
  match stripLeading (if dir = ['/'] then dir else dir ++ ['/']) p with
  | some name => if ProperSegment name then some name else none
  | none => none

/-- A directory entry as returned by `readdir` with `withFileTypes`. -/
structure Dirent where
  name : Str
  isFile : Bool
  deriving DecidableEq, Repr

/-- Whether the node is a regular file. -/
def Node.isFile : Node → Bool
  | Node.file _ _ => true
  | Node.dir => false

/-- What the operating system decides and the table does not record. -/
structure Host where
  /-- The error `fs.rename` reports for a cause outside the table (a name that
  is too long, another device, missing permissions, a read-only or full
  volume), if there is one, for the given source and target. -/
  renameError : Str → Str → Option Str
  /-- The order in which a directory is enumerated, as a rearrangement of its
  entries. -/
  enumerate : List Dirent → List Dirent

/-- The enumeration returns the entries of the directory, in some order. -/
def Host.Rearranges (host : Host) : Prop := ∀ l : List Dirent, (host.enumerate l).Perm l

/-- The entries of the table that are direct children of `dir`. -/
def entriesOf (dir : Str) (fs : FS) : List Dirent :=
  fs.filterMap fun e => (childName dir e.1).map fun n => ⟨n, e.2.isFile⟩

/-- Node's `fs.readdir(dir, \x7bwithFileTypes: true\x7d)`: the entries of the
directory in the order of the operating system, or an error code. -/
def readdir (host : Host) (fs : FS) (dir : Str) : Except Str (List Dirent) :=
  match lookup fs dir with
  | some Node.dir => Except.ok (host.enumerate (entriesOf dir fs))
  | some (Node.file _ _) => Except.error "ENOTDIR".toList
  | none => Except.error "ENOENT".toList

/-- The fields of `fs.Stats` the service reads. -/
structure Stats where
  size : Nat
  mtimeMs : Nat
  deriving DecidableEq, Repr

/-- Node's `fs.statSync`: throws (an error code) when the path is missing. -/
def statSync (fs : FS) (p : Str) : Except Str Stats :=
  match lookup fs p with
  | some (Node.file c m) => Except.ok ⟨c.length, m⟩
  | some Node.dir => Except.ok ⟨0, 0⟩
  | none => Except.error "ENOENT".toList

/-- The bytes delivered by `fs.createReadStream(p)`, or the code of the
`error` event the stream emits. -/
def createReadStream (fs : FS) (p : Str) : Except Str (List Nat) :=
  match lookup fs p with
  | some (Node.file c _) => Except.ok c
  | some Node.dir => Except.error "EISDIR".toList
  | none => Except.error "ENOENT".toList

/-- Delete the entry at `p`. -/
def remove (fs : FS) (p : Str) : FS := fs.filter fun e => decide (e.1 ≠ p)

/-- Store `n` at `p`, replacing the node already there or adding an entry. -/
def write (fs : FS) (p : Str) (n : Node) : FS :=
  if existsSync fs p then fs.map fun e => if e.1 = p then (p, n) else e
  else fs ++ [(p, n)]

/-- Node's `fs.rename` for a regular-file source, the only kind of source the
service relocates (the staged upload).  The call fails with the error of the
operating system when there is one; otherwise the target's directory must
exist, a directory at the target makes the call fail, and a regular file at the
target is replaced.  A directory source is reported as an error. -/
def rename (host : Host) (fs : FS) (oldPath newPath : Str) : Except Str FS :=
  match host.renameError oldPath newPath with
  | some code => Except.error code
  | none =>
    match lookup fs oldPath with
    | none => Except.error "ENOENT".toList
    | some Node.dir => Except.error "EINVAL".toList
    | some (Node.file c m) =>
      match lookup fs (parentPath newPath) with
      | none => Except.error "ENOENT".toList
      | some (Node.file _ _) => Except.error "ENOTDIR".toList
      | some Node.dir =>
        if oldPath = newPath then Except.ok fs
        else
          match lookup fs newPath with
          | some Node.dir => Except.error "EISDIR".toList
          | _ => Except.ok (write (remove fs oldPath) newPath (Node.file c m))

/-- Create or overwrite a regular file, as the disk storage of multer does
for the staged upload. -/
def writeFile (fs : FS) (p : Str) (content : List Nat) (mtimeMs : Nat) : Except Str FS :=
  match lookup fs (parentPath p) with
  | some Node.dir =>
    match lookup fs p with
    | some Node.dir => Except.error "EISDIR".toList
    | _ => Except.ok (write fs p (Node.file content mtimeMs))
  | some (Node.file _ _) => Except.error "ENOTDIR".toList
  | none => Except.error "ENOENT".toList

/-! ## HTTP layer -/

/-- One element of the JSON array returned by `GET /files`. -/
structure FileInfo where
  name : Str
  size : Nat
  mtime : Nat
  mime : Str
  deriving DecidableEq, Repr

/-- Response bodies of the service. -/
inductive Body where
  /-- A JSON object with the single field `error`. -/
  | error (message : Str)
  /-- The JSON array of the listing. -/
  | files (entries : List FileInfo)
  /-- The JSON object with `ok: true` and the stored `name`. -/
  | ok (name : Str)
  /-- The bytes piped from a read stream. -/
  | stream (bytes : List Nat)
  /-- No content. -/
  | empty
  /-- The page Express sends when no route matches. -/
  | page
  deriving DecidableEq, Repr

/-- A finished response. -/
structure Response where
  status : Nat
  headers : List (Str × Str)
  body : Body
  deriving DecidableEq, Repr

/-- How the handling of a request ends: with a response, or with an exception
that no handler catches (thrown in a callback, or an `error` event without a
listener). -/
inductive Outcome where
  | respond (r : Response)
  | uncaught (code : Str)
  deriving DecidableEq, Repr

/-- What a middleware does: pass the request on, or answer it. -/
inductive Step where
  | next
  | send (r : Response)
  deriving DecidableEq, Repr

/-- The route of `server.js` that Express matches for the method and path of a
request, the `:name` parameter percent-decoded. -/
inductive Route where
  /-- `GET /files`. -/
  | list
  /-- `GET /files/:name`. -/
  | download (name : Str)
  /-- `POST /upload`. -/
  | upload
  /-- No route of the application. -/
  | unmatched
  deriving DecidableEq, Repr

/-- The file part of a multipart body in the field `file`, as the client sent it. -/
structure FilePart where
  /-- The `filename` of the part's `Content-Disposition`. -/
  filename : Str
  /-- The `Content-Type` the part declares. -/
  contentType : Str
  content : List Nat
  deriving DecidableEq, Repr

/-- What the service reads of a request. -/
structure Request where
  /-- The HTTP method, in upper case. -/
  method : Str
  route : Route
  /-- The value of `req.header('x-api-key')`. -/
  apiKey : Option Str
  /-- The message of the error `express.json()` raises on the body, if it raises one. -/
  jsonError : Option Str
  /-- The multipart file part in the field `file`, if there is one. -/
  file : Option FilePart
  deriving DecidableEq, Repr

/-- The object multer leaves in `req.file`. -/
structure MulterFile where
  path : Str
  originalname : Str
  mimetype : Str
  size : Nat
  deriving DecidableEq, Repr

/-- The default type when `mime.lookup` finds none. -/
def octetStream : Str := "application/octet-stream".toList

/-- The 401 answer of the API key middleware. -/
def unauthorized : Response := ⟨401, [], Body.error "unauthorized".toList⟩

/-- The middleware `cors()` with its default options: a request of method
OPTIONS is answered as a preflight with status 204, every other request is
passed on. -/
def cors (req : Request) : Step :=
  if req.method = "OPTIONS".toList then Step.send ⟨204, [], Body.empty⟩ else Step.next

/-- The middleware `express.json()`: a body it cannot accept is passed to the
error handlers. -/
def expressJson (req : Request) : Except Str Unit :=
  match req.jsonError with
  | some message => Except.error message
  | none => Except.ok ()

/-- The API key middleware (lines 27-31). -/
def apiKeyGuard (API_KEY : Str) (key : Option Str) : Step :=
  match key with
  | none => Step.send unauthorized
  | some k => if k = [] ∨ k ≠ API_KEY then Step.send unauthorized else Step.next

/-- The test `/^image\//.test(s)`. -/
def testImage : Str → Bool
  | 'i' :: 'm' :: 'a' :: 'g' :: 'e' :: '/' :: _ => true
  | _ => false

/-- The `fileFilter` of the multer instance (lines 37-41), applied to
`file.mimetype`: the error message passed to the callback, or the accepting
flag. -/
def fileFilter (mimetype : Str) : Except Str Bool :=
  let ok := testImage mimetype || decide (mimetype = octetStream)
  if !ok then Except.error "Unsupported mime type".toList else Except.ok true

/-- The error-handling middleware (lines 80-86), reached with the message of
the error. -/
def errorHandler (message : Str) : Outcome :=
  Outcome.respond ⟨400, [], Body.error message⟩

/-- The file name the multipart parser of multer reports for a part: the text
after the last `/` or backslash of the name the client sent, and the empty
name when that text is `.` or `..`. -/
def partFileName (filename : Str) : Str :=
  let last := (filename.reverse.takeWhile fun c => c != '/' && c != Char.ofNat 92).reverse
  if last = ['.', '.'] ∨ last = ['.'] then [] else last

/-- The middleware `upload.single('file')`.  `reportedType` is the multipart
parser's reading of a declared `Content-Type` (it lower-cases the type and
falls back to a default when it cannot parse it), whose result multer puts in
`file.mimetype`.  A part without a file name is skipped, the file filter
decides on `file.mimetype`, the size limit is enforced, and an accepted file is
written under `stagingName` (the random name multer draws) in `TMP_DIR`. -/
def uploadSingle (TMP_DIR : Str) (MAX_UPLOAD : Nat) (reportedType : Str → Str)
    (stagingName : Str) (now : Nat) (part : Option FilePart) (fs : FS) :
    Except Str (Option MulterFile) × FS :=
  match part with
  | none => (Except.ok none, fs)
  | some f =>
    if partFileName f.filename = [] then (Except.ok none, fs)
    else
      match fileFilter (reportedType f.contentType) with
      | Except.error message => (Except.error message, fs)
      | Except.ok false => (Except.ok none, fs)
      | Except.ok true =>
        if MAX_UPLOAD < f.content.length then (Except.error "File too large".toList, fs)
        else
          match writeFile fs (join TMP_DIR stagingName) f.content now with
          | Except.error code => (Except.error code, fs)
          | Except.ok fs2 =>
            (Except.ok (some ⟨join TMP_DIR stagingName, partFileName f.filename,
              reportedType f.contentType, f.content.length⟩), fs2)

/-- The element of the listing for an entry (line 51), given its stats. -/
def fileInfo (FILES_DIR : Str) (mimeLookup : Str → Option Str) (e : Dirent) (stat : Stats) :
    FileInfo :=
  ⟨e.name, stat.size, stat.mtimeMs, jsOr (mimeLookup (join FILES_DIR e.name)) octetStream⟩

/-- The stats and type of the listed entries, in order (the `map` of line
48); the first `statSync` that throws ends the evaluation. -/
def listEntries (FILES_DIR : Str) (mimeLookup : Str → Option Str) (fs : FS) :
    List Dirent → Except Str (List FileInfo)
  | [] => Except.ok []
  | e :: rest =>
    match statSync fs (join FILES_DIR e.name) with
    | Except.error code => Except.error code
    | Except.ok stat =>
      match listEntries FILES_DIR mimeLookup fs rest with
      | Except.error code => Except.error code
      | Except.ok infos => Except.ok (fileInfo FILES_DIR mimeLookup e stat :: infos)

/-- The handler of `GET /files` (lines 45-55).  `mimeLookup` is `mime.lookup`. -/
def listHandler (host : Host) (FILES_DIR : Str) (mimeLookup : Str → Option Str) (fs : FS) :
    Outcome :=
  match readdir host fs FILES_DIR with
  | Except.error _ => Outcome.respond ⟨500, [], Body.error "cannot list".toList⟩
  | Except.ok entries =>
    match listEntries FILES_DIR mimeLookup fs (entries.filter fun e => e.isFile) with
    | Except.error code => Outcome.uncaught code
    | Except.ok infos => Outcome.respond ⟨200, [], Body.files infos⟩

/-- The path `fp` of the download handler (lines 59-60). -/
def downloadPath (FILES_DIR : Str) (name : Str) : Str :=
  join FILES_DIR (basename name)

/-- The headers set by the download handler (lines 62-63). -/
def downloadHeaders (FILES_DIR : Str) (mimeLookup : Str → Option Str) (name : Str) :
    List (Str × Str) :=
  [("Content-Type".toList, jsOr (mimeLookup (downloadPath FILES_DIR name)) octetStream),
   ("Content-Disposition".toList,
     "attachment; filename=\"".toList ++ basename name ++ "\"".toList)]

/-- The characters Node accepts in a header value: the tab and the
characters from 0x20 to 0x7e and from 0x80 to 0xff. -/
def validHeaderChar (c : Char) : Bool :=
  let n := c.toNat
  n = 9 ∨ (0x20 ≤ n ∧ n ≤ 0x7e) ∨ (0x80 ≤ n ∧ n ≤ 0xff)

/-- The message of the error `res.setHeader(name, value)` throws, if it throws. -/
def setHeaderError (name value : Str) : Option Str :=
  if value.all validHeaderChar then none
  else some ("Invalid character in header content [\"".toList ++ name ++ "\"]".toList)

/-- The handler of `GET /files/:name` (lines 58-65).  An exception thrown by
`setHeader` is caught by Express and passed to the error handler. -/
def downloadHandler (FILES_DIR : Str) (mimeLookup : Str → Option Str) (fs : FS)
    (name : Str) : Outcome :=
  if !existsSync fs (downloadPath FILES_DIR name) then
    Outcome.respond ⟨404, [], Body.error "not found".toList⟩
  else
    match (downloadHeaders FILES_DIR mimeLookup name).findSome?
        (fun h => setHeaderError h.1 h.2) with
    | some message => errorHandler message
    | none =>
      match createReadStream fs (downloadPath FILES_DIR name) with
      | Except.ok bytes =>
        Outcome.respond ⟨200, downloadHeaders FILES_DIR mimeLookup name, Body.stream bytes⟩
      | Except.error code => Outcome.uncaught code

/-- The candidate name `original` of line 70. -/
def candidateName (originalname : Str) : Str :=
  replaceWhitespace (basename originalname)

/-- The timestamped name of line 72. -/
def stampedName (now : Nat) (original : Str) : Str :=
  numberToString now ++ '_' :: original

/-- The destination `finalPath` of lines 71-72; `now` is `Date.now()`. -/
def finalPath (FILES_DIR : Str) (fs : FS) (now : Nat) (originalname : Str) : Str :=
  if existsSync fs (join FILES_DIR (candidateName originalname)) then
    join FILES_DIR (stampedName now (candidateName originalname))
  else join FILES_DIR (candidateName originalname)

/-- The handler of `POST /upload` (lines 68-77), after multer has run. -/
def uploadHandler (host : Host) (FILES_DIR : Str) (fs : FS) (now : Nat)
    (file : Option MulterFile) : Outcome × FS :=
  match file with
  | none => (Outcome.respond ⟨400, [], Body.error "no file".toList⟩, fs)
  | some f =>
    match rename host fs f.path (finalPath FILES_DIR fs now f.originalname) with
    | Except.error _ => (Outcome.respond ⟨500, [], Body.error "cannot move".toList⟩, fs)
    | Except.ok fs2 =>
      (Outcome.respond ⟨200, [],
        Body.ok (basename (finalPath FILES_DIR fs now f.originalname))⟩, fs2)

/-- The application: the middleware and routes of `server.js` in registration
order (`cors`, `morgan`, which only logs, `express.json`, the API key
middleware, the routes, the error handler). -/
def app (env : ProcessEnv) (host : Host) (mimeLookup : Str → Option Str)
    (reportedType : Str → Str) (stagingName : Str) (now : Nat) (req : Request) (fs : FS) :
    Outcome × FS :=
  match cors req with
  | Step.send r => (Outcome.respond r, fs)
  | Step.next =>
    match expressJson req with
    | Except.error message => (errorHandler message, fs)
    | Except.ok _ =>
      match apiKeyGuard (API_KEY env) req.apiKey with
      | Step.send r => (Outcome.respond r, fs)
      | Step.next =>
        match req.route with
        | Route.list => (listHandler host (FILES_DIR env) mimeLookup fs, fs)
        | Route.download name => (downloadHandler (FILES_DIR env) mimeLookup fs name, fs)
        | Route.upload =>
          match uploadSingle (TMP_DIR env) (MAX_UPLOAD env) reportedType stagingName now
              req.file fs with
          | (Except.error message, fs1) => (errorHandler message, fs1)
          | (Except.ok file, fs1) => uploadHandler host (FILES_DIR env) fs1 now file
        | Route.unmatched => (Outcome.respond ⟨404, [], Body.page⟩, fs)

/-! ## Sample data for the closed statements -/

/-- A process started in `/srv/app` with no variable set. -/
def sampleEnv : ProcessEnv := ⟨"/srv/app".toList, none, none, none, none⟩

/-- An operating system that reports no relocation error of its own and
enumerates a directory from the newest entry to the oldest. -/
def sampleHost : Host := ⟨fun _ _ => none, List.reverse⟩

/-- An excerpt of the table behind `mime.lookup`: the extension `.png`. -/
def sampleMime (p : Str) : Option Str :=
  if ".png".toList.isSuffixOf p then some "image/png".toList else none

/-- The multipart parser's reading of a declared type of the form
`type/subtype`: its lower-case form. -/
def lowerCaseType (declared : Str) : Str := declared.map Char.toLower

/-- A file system with one stored file, one subdirectory of the files
directory and one staged upload of ten bytes. -/
def sampleFS : FS :=
  [("/".toList, Node.dir), ("/srv".toList, Node.dir), ("/srv/app".toList, Node.dir),
   ("/srv/app/files".toList, Node.dir), ("/srv/app/tmp".toList, Node.dir),
   ("/srv/app/files/a.png".toList, Node.file [1, 2, 3] 5),
   ("/srv/app/files/sub".toList, Node.dir),
   ("/srv/app/tmp/f3a9".toList, Node.file [0, 1, 2, 3, 4, 5, 6, 7, 8, 9] 9)]

/-- The sample file system with a stored file that already bears the
timestamped name of `a.png` at clock value 1000. -/
def collisionFS : FS := sampleFS ++ [("/srv/app/files/1000_a.png".toList, Node.file [4, 5] 6)]

/-- The sample file system with a directory under the timestamped name of
`a.png` at clock value 1000. -/
def blockedFS : FS := sampleFS ++ [("/srv/app/files/1000_a.png".toList, Node.dir)]

/-- The `req.file` of the staged upload of the sample file system. -/
def stagedUpload (originalname : Str) : MulterFile :=
  ⟨"/srv/app/tmp/f3a9".toList, originalname, "image/png".toList, 10⟩

/-- A preflight request without the API key header. -/
def preflightRequest : Request := ⟨"OPTIONS".toList, Route.upload, none, none, none⟩

/-- A `GET /files/:name` request with the default API key. -/
def authorizedDownload (name : Str) : Request :=
  ⟨"GET".toList, Route.download name, some "dev-key".toList, none, none⟩

/-- A `GET /files` request without the API key header. -/
def anonymousList : Request := ⟨"GET".toList, Route.list, none, none, none⟩

/-- A `POST /upload` request with the default API key and a part declared as
`text/plain`. -/
def textUpload : Request :=
  ⟨"POST".toList, Route.upload, some "dev-key".toList, none,
    some ⟨"notes.txt".toList, "text/plain".toList, [104, 105]⟩⟩

/-- A `POST /upload` request with the default API key and a part declared as
`IMAGE/PNG`, in upper case. -/
def upperCaseUpload : Request :=
  ⟨"POST".toList, Route.upload, some "dev-key".toList, none,
    some ⟨"photo.png".toList, "IMAGE/PNG".toList, [7, 7, 7]⟩⟩

/-- The stats of a path, and zeros when `statSync` throws; with it the listing
of entries that exist is a map over the entries. -/
def statsAt (fs : FS) (p : Str) : Stats :=
  match statSync fs p with
  | Except.ok stat => stat
  | Except.error _ => ⟨0, 0⟩

/-- The sample file system after the relocation of its staged upload to the
entry `name` of the files directory. -/
def storedFS (name : Str) : FS :=
  remove sampleFS "/srv/app/tmp/f3a9".toList ++
    [("/srv/app/files/".toList ++ name, Node.file [0, 1, 2, 3, 4, 5, 6, 7, 8, 9] 9)]

/-! ## Splitting and joining path segments -/

theorem splitSlash_ne_nil (s : Str) : splitSlash s ≠ [] := by
  induction s with
  | nil => simp [splitSlash]
  | cons c cs ih =>
    unfold splitSlash
    split_ifs
    · simp
    · split <;> simp

theorem splitSlash_cons_slash (s : Str) : splitSlash ('/' :: s) = [] :: splitSlash s := by
  simp [splitSlash]

theorem splitSlash_cons_of_ne (c : Char) (cs s : Str) (ss : List Str) (hc : c ≠ '/')
    (h : splitSlash cs = s :: ss) : splitSlash (c :: cs) = (c :: s) :: ss := by
  rw [splitSlash, if_neg hc, h]

theorem splitSlash_noSlash (s : Str) : ∀ seg ∈ splitSlash s, '/' ∉ seg := by
  induction s with
  | nil => simp [splitSlash]
  | cons c cs ih =>
    unfold splitSlash
    split_ifs with hc
    · intro seg hseg
      rcases List.mem_cons.1 hseg with h | h
      · subst h; simp
      · exact ih seg h
    · split
      · rename_i s ss heq
        intro seg hseg
        rw [heq] at ih
        rcases List.mem_cons.1 hseg with h | h
        · subst h
          have := ih s (List.mem_cons_self _ _)
          simp only [List.mem_cons, not_or]
          exact ⟨fun h => hc h.symm, this⟩
        · exact ih seg (List.mem_cons_of_mem _ h)
      · intro seg hseg
        simp only [List.mem_singleton] at hseg
        subst hseg
        simp only [List.mem_singleton]
        exact fun h => hc h.symm

theorem splitSlash_of_noSlash (s : Str) (h : '/' ∉ s) : splitSlash s = [s] := by
  induction s with
  | nil => simp [splitSlash]
  | cons c cs ih =>
    simp only [List.mem_cons, not_or] at h
    unfold splitSlash
    rw [if_neg (fun hc => h.1 hc.symm), ih h.2]

theorem splitSlash_append_slash (a b : Str) :
    splitSlash (a ++ '/' :: b) = splitSlash a ++ splitSlash b := by
  induction a with
  | nil => simp [splitSlash]
  | cons c cs ih =>
    simp only [List.cons_append]
    by_cases hc : c = '/'
    · subst hc
      rw [splitSlash_cons_slash, splitSlash_cons_slash, ih]; rfl
    · cases hsp : splitSlash cs with
      | nil => exact absurd hsp (splitSlash_ne_nil cs)
      | cons s ss =>
        rw [splitSlash_cons_of_ne c cs s ss hc hsp,
          splitSlash_cons_of_ne c (cs ++ '/' :: b) s (ss ++ splitSlash b) hc (by rw [ih, hsp]; rfl)]
        rfl

theorem splitSlash_joinSlash (segs : List Str) (hne : segs ≠ [])
    (h : ∀ s ∈ segs, '/' ∉ s) : splitSlash (joinSlash segs) = segs := by
  induction segs with
  | nil => exact absurd rfl hne
  | cons s rest ih =>
    cases rest with
    | nil => simpa [joinSlash] using splitSlash_of_noSlash s (h s (List.mem_cons_self _ _))
    | cons t r =>
      simp only [joinSlash]
      rw [splitSlash_append_slash, splitSlash_of_noSlash s (h s (List.mem_cons_self _ _)),
        ih (by simp) (fun x hx => h x (List.mem_cons_of_mem _ hx))]
      rfl

theorem joinSlash_append_single (segs : List Str) (name : Str) (hne : segs ≠ []) :
    joinSlash (segs ++ [name]) = joinSlash segs ++ '/' :: name := by
  induction segs with
  | nil => exact absurd rfl hne
  | cons s rest ih =>
    cases rest with
    | nil => simp [joinSlash]
    | cons t r =>
      have := ih (by simp)
      show s ++ '/' :: joinSlash (t :: r ++ [name]) = (s ++ '/' :: joinSlash (t :: r)) ++ '/' :: name
      rw [this]; simp

theorem joinSlash_eq_nil (segs : List Str) (h : ∀ s ∈ segs, s ≠ []) :
    joinSlash segs = [] → segs = [] := by
  cases segs with
  | nil => intro _; rfl
  | cons s rest =>
    cases rest with
    | nil => simp only [joinSlash]; intro hs; exact absurd hs (h s (List.mem_cons_self _ _))
    | cons t r => simp [joinSlash]

theorem normalizeSegs_proper (b : Bool) (acc segs : List Str)
    (h : ∀ s ∈ segs, ProperSegment s) : normalizeSegs b acc segs = acc.reverse ++ segs := by
  induction segs generalizing acc with
  | nil => simp [normalizeSegs]
  | cons s rest ih =>
    have hs := h s (List.mem_cons_self _ _)
    unfold normalizeSegs
    rw [if_neg (by rintro (h1 | h1); exact hs.1 h1; exact hs.2.1 h1), if_neg hs.2.2.1,
      ih _ (fun x hx => h x (List.mem_cons_of_mem _ hx))]
    simp

/-! ## Normalisation of resolved paths -/

theorem normalizeSegs_cons (b : Bool) (acc : List Str) (seg : Str) (rest : List Str) :
    normalizeSegs b acc (seg :: rest) =
      if seg = [] ∨ seg = ['.'] then normalizeSegs b acc rest
      else if seg = ['.', '.'] then
        match acc with
        | top :: below =>
          if top = ['.', '.'] then normalizeSegs b (if b then seg :: acc else acc) rest
          else normalizeSegs b below rest
        | [] => normalizeSegs b (if b then [seg] else []) rest
      else normalizeSegs b (seg :: acc) rest := by
  conv_lhs => unfold normalizeSegs

theorem normalizeSegs_append_proper (b : Bool) (acc segs rest : List Str)
    (h : ∀ s ∈ segs, ProperSegment s) :
    normalizeSegs b acc (segs ++ rest) = normalizeSegs b (segs.reverse ++ acc) rest := by
  induction segs generalizing acc with
  | nil => simp
  | cons s more ih =>
    have hs := h s (List.mem_cons_self _ _)
    rw [List.cons_append, normalizeSegs_cons,
      if_neg (by rintro (h1 | h1); exact hs.1 h1; exact hs.2.1 h1), if_neg hs.2.2.1,
      ih _ (fun x hx => h x (List.mem_cons_of_mem _ hx))]
    simp

theorem normalizeSegs_nil_cons (b : Bool) (acc rest : List Str) :
    normalizeSegs b acc ([] :: rest) = normalizeSegs b acc rest := by
  rw [normalizeSegs_cons, if_pos (Or.inl rfl)]

theorem normalizeSegs_all_proper (acc input : List Str)
    (hacc : ∀ s ∈ acc, ProperSegment s) (hin : ∀ s ∈ input, '/' ∉ s) :
    ∀ s ∈ normalizeSegs false acc input, ProperSegment s := by
  induction input generalizing acc with
  | nil => simpa [normalizeSegs] using hacc
  | cons seg rest ih =>
    have hrest : ∀ s ∈ rest, '/' ∉ s := fun x hx => hin x (List.mem_cons_of_mem _ hx)
    rw [normalizeSegs_cons]
    by_cases h1 : seg = [] ∨ seg = ['.']
    · rw [if_pos h1]; exact ih acc hacc hrest
    · rw [if_neg h1]
      by_cases h2 : seg = ['.', '.']
      · rw [if_pos h2]
        cases acc with
        | nil => simpa using ih [] (by simp) hrest
        | cons top below =>
          simp only
          by_cases h3 : top = ['.', '.']
          · rw [if_pos h3]; simpa using ih (top :: below) hacc hrest
          · rw [if_neg h3]
            exact ih below (fun x hx => hacc x (List.mem_cons_of_mem _ hx)) hrest
      · rw [if_neg h2]
        refine ih (seg :: acc) ?_ hrest
        intro x hx
        rcases List.mem_cons.1 hx with h | h
        · subst h
          exact ⟨fun h => h1 (Or.inl h), fun h => h1 (Or.inr h), h2, hin x (List.mem_cons_self _ _)⟩
        · exact hacc x h

/-- Segments of a resolved directory as they come back from splitting. -/
theorem normalizeSegs_split_joinSlash (segs rest : List Str)
    (h : ∀ s ∈ segs, ProperSegment s) :
    normalizeSegs false [] (splitSlash (joinSlash segs) ++ rest)
      = normalizeSegs false segs.reverse rest := by
  by_cases hne : segs = []
  · subst hne
    simp [joinSlash, splitSlash, normalizeSegs_nil_cons]
  · rw [splitSlash_joinSlash segs hne (fun s hs => (h s hs).2.2.2),
      normalizeSegs_append_proper false [] segs rest h]
    simp

theorem getLast?_append_cons_ne (a : Str) (c : Char) (name : Str) (hne : name ≠ [])
    (h : '/' ∉ name) : (a ++ c :: name).getLast? ≠ some '/' := by
  have hl : (a ++ c :: name) = (a ++ [c]) ++ name := by simp
  rw [hl, List.getLast?_append_of_ne_nil _ hne]
  intro hc
  exact h (List.mem_of_getLast?_eq_some hc)

theorem normalize_abs (rest : Str) (hlast : ('/' :: rest).getLast? ≠ some '/') :
    normalize ('/' :: rest) = '/' :: joinSlash (normalizeSegs false [] (splitSlash rest)) := by
  unfold normalize normalizeString
  simp only [List.head?_cons, decide_True, Bool.not_true, splitSlash_cons_slash,
    normalizeSegs_nil_cons, hlast, decide_False]
  simp only [reduceCtorEq, if_false, if_true, Bool.false_eq_true]
  split_ifs with h
  · rw [h]
  · rfl

theorem join_resolved_proper (dir name : Str) (hd : Resolved dir) (hn : ProperSegment name) :
    join dir name = childPath dir name := by
  obtain ⟨segs, hsegs, rfl⟩ := hd
  have h1 : join ('/' :: joinSlash segs) name = normalize ('/' :: (joinSlash segs ++ '/' :: name)) := by
    simp [join, hn.1]
  rw [h1, normalize_abs _ (by
      have := getLast?_append_cons_ne ('/' :: joinSlash segs) '/' name hn.1 hn.2.2.2
      simpa using this),
    splitSlash_append_slash, splitSlash_of_noSlash name hn.2.2.2,
    normalizeSegs_split_joinSlash segs [name] hsegs,
    normalizeSegs_proper false segs.reverse [name] (by simpa using hn)]
  unfold childPath
  by_cases hne : segs = []
  · subst hne; simp [joinSlash]
  · have : ('/' :: joinSlash segs) ≠ ['/'] := by
      intro h
      simp only [List.cons.injEq, true_and] at h
      exact hne (joinSlash_eq_nil segs (fun s hs => (hsegs s hs).1) h)
    rw [if_neg this, List.reverse_reverse, joinSlash_append_single segs name hne]
    simp

/-! ## Resolved directories -/

theorem resolved_ne_nil (dir : Str) (hd : Resolved dir) : dir ≠ [] := by
  obtain ⟨segs, _, rfl⟩ := hd; simp

theorem joinSlash_getLast (segs : List Str) (hne : segs ≠ [])
    (h : ∀ s ∈ segs, ProperSegment s) : ('/' :: joinSlash segs).getLast? ≠ some '/' := by
  induction segs with
  | nil => exact absurd rfl hne
  | cons s rest ih =>
    have hs := h s (List.mem_cons_self _ _)
    cases rest with
    | nil =>
      simpa [joinSlash] using getLast?_append_cons_ne [] '/' s hs.1 hs.2.2.2
    | cons t r =>
      have := ih (by simp) (fun x hx => h x (List.mem_cons_of_mem _ hx))
      simp only [joinSlash]
      have h2 : ('/' :: (s ++ '/' :: joinSlash (t :: r))) = ('/' :: s) ++ ('/' :: joinSlash (t :: r)) := by
        simp
      rw [h2, List.getLast?_append_of_ne_nil _ (by simp)]
      exact this

theorem normalize_resolved (dir : Str) (hd : Resolved dir) : normalize dir = dir := by
  obtain ⟨segs, hsegs, rfl⟩ := hd
  by_cases hne : segs = []
  · subst hne; decide
  · rw [normalize_abs _ (joinSlash_getLast segs hne hsegs)]
    have := normalizeSegs_split_joinSlash segs [] hsegs
    rw [List.append_nil] at this
    rw [this]
    simp [normalizeSegs]

theorem join_resolved_nil (dir : Str) (hd : Resolved dir) : join dir [] = dir := by
  unfold join
  rw [if_neg (resolved_ne_nil dir hd), if_pos rfl, normalize_resolved dir hd]

theorem join_resolved_dot (dir : Str) (hd : Resolved dir) : join dir ['.'] = dir := by
  obtain ⟨segs, hsegs, rfl⟩ := hd
  have h1 : join ('/' :: joinSlash segs) ['.'] = normalize ('/' :: (joinSlash segs ++ '/' :: ['.'])) := by
    simp [join]
  rw [h1, normalize_abs _ (by
      have := getLast?_append_cons_ne ('/' :: joinSlash segs) '/' ['.'] (by simp) (by decide)
      simpa using this),
    splitSlash_append_slash, normalizeSegs_split_joinSlash segs _ hsegs]
  simp [splitSlash, normalizeSegs]

theorem parentPath_resolved (segs : List Str) (hsegs : ∀ s ∈ segs, ProperSegment s) :
    parentPath ('/' :: joinSlash segs) = '/' :: joinSlash segs.dropLast := by
  have h1 : parentPath ('/' :: joinSlash segs)
      = normalize ('/' :: (joinSlash segs ++ '/' :: ['.', '.'])) := by
    simp [parentPath, join]
  rw [h1, normalize_abs _ (by
      have := getLast?_append_cons_ne ('/' :: joinSlash segs) '/' ['.', '.'] (by simp) (by decide)
      simpa using this),
    splitSlash_append_slash, normalizeSegs_split_joinSlash segs _ hsegs]
  have h2 : splitSlash ['.', '.'] = [['.', '.']] := by decide
  rw [h2, normalizeSegs_cons, if_neg (by decide), if_pos rfl]
  rcases List.eq_nil_or_concat segs with h | ⟨init, last, h⟩
  · subst h; simp [normalizeSegs]
  · subst h
    have hl : ProperSegment last := hsegs last (by simp)
    simp only [List.concat_eq_append, List.reverse_append, List.reverse_cons, List.reverse_nil,
      List.nil_append, List.singleton_append, List.dropLast_concat]
    rw [if_neg hl.2.2.1]
    simp [normalizeSegs]

theorem resolved_childPath (dir name : Str) (hd : Resolved dir) (hn : ProperSegment name) :
    Resolved (childPath dir name) := by
  obtain ⟨segs, hsegs, rfl⟩ := hd
  refine ⟨segs ++ [name], ?_, ?_⟩
  · intro s hs
    rcases List.mem_append.1 hs with h | h
    · exact hsegs s h
    · simp only [List.mem_singleton] at h; subst h; exact hn
  · unfold childPath
    by_cases hne : segs = []
    · subst hne; simp [joinSlash]
    · have : ('/' :: joinSlash segs) ≠ ['/'] := by
        intro h
        simp only [List.cons.injEq, true_and] at h
        exact hne (joinSlash_eq_nil segs (fun s hs => (hsegs s hs).1) h)
      rw [if_neg this, joinSlash_append_single segs name hne]
      simp

theorem parentPath_childPath (dir name : Str) (hd : Resolved dir) (hn : ProperSegment name) :
    parentPath (childPath dir name) = dir := by
  obtain ⟨segs, hsegs, rfl⟩ := hd
  have hc : childPath ('/' :: joinSlash segs) name = '/' :: joinSlash (segs ++ [name]) := by
    unfold childPath
    by_cases hne : segs = []
    · subst hne; simp [joinSlash]
    · have : ('/' :: joinSlash segs) ≠ ['/'] := by
        intro h
        simp only [List.cons.injEq, true_and] at h
        exact hne (joinSlash_eq_nil segs (fun s hs => (hsegs s hs).1) h)
      rw [if_neg this, joinSlash_append_single segs name hne]
      simp
  rw [hc, parentPath_resolved (segs ++ [name])]
  · simp
  · intro s hs
    rcases List.mem_append.1 hs with h | h
    · exact hsegs s h
    · simp only [List.mem_singleton] at h; subst h; exact hn

theorem resolved_parentPath (dir : Str) (hd : Resolved dir) : Resolved (parentPath dir) := by
  obtain ⟨segs, hsegs, rfl⟩ := hd
  rw [parentPath_resolved segs hsegs]
  exact ⟨segs.dropLast, fun s hs => hsegs s (List.dropLast_subset _ hs), rfl⟩

theorem resolve_resolved (cwd p : Str) (hcwd : cwd.head? = some '/') : Resolved (resolve cwd p) := by
  have hne : cwd ≠ [] := by intro h; subst h; simp at hcwd
  have key : ∀ r : Str, Resolved ('/' :: normalizeString r false) := fun r =>
    ⟨_, normalizeSegs_all_proper [] _ (by simp) (splitSlash_noSlash r), rfl⟩
  unfold resolve
  by_cases hp : p.head? = some '/'
  · simp only [hp, decide_True, if_true, Bool.not_true]
    exact key _
  · simp only [hp, decide_False, hne, hcwd, decide_True, if_true, if_false, Bool.not_true,
      Bool.false_eq_true]
    exact key _

theorem FILES_DIR_resolved (env : ProcessEnv) (hcwd : env.cwd.head? = some '/') :
    Resolved (FILES_DIR env) := resolve_resolved _ _ hcwd

/-! ## Base names, child names and names built by the upload handler -/

theorem basename_noSlash (p : Str) : '/' ∉ basename p := by
  unfold basename
  intro h
  rw [List.mem_reverse] at h
  have := List.mem_takeWhile_imp h
  simp at this

theorem takeWhile_append_stop (l r : Str) (hl : '/' ∉ l) :
    (l ++ '/' :: r).takeWhile (fun c => c != '/') = l := by
  induction l with
  | nil => simp
  | cons c cs ih =>
    simp only [List.mem_cons, not_or] at hl
    have hc : (c != '/') = true := by simpa using fun h => hl.1 h.symm
    rw [List.cons_append, List.takeWhile_cons, hc]
    simp [ih hl.2]

theorem basename_append (a name : Str) (hne : name ≠ []) (hn : '/' ∉ name) :
    basename (a ++ '/' :: name) = name := by
  unfold basename
  have h1 : (a ++ '/' :: name).reverse = name.reverse ++ '/' :: a.reverse := by simp
  rw [h1]
  have hr : '/' ∉ name.reverse := by simpa using hn
  cases hrev : name.reverse with
  | nil => simp at hrev; exact absurd hrev hne
  | cons c cs =>
    rw [hrev] at hr
    simp only [List.mem_cons, not_or] at hr
    have hc : (c == '/') = false := by simpa using fun h => hr.1 h.symm
    rw [List.cons_append, List.dropWhile_cons, hc]
    simp only [Bool.false_eq_true, if_false]
    rw [← List.cons_append, takeWhile_append_stop (c :: cs) a.reverse (by simpa using hr), ← hrev]
    simp

theorem basename_childPath (dir name : Str) (hn : ProperSegment name) :
    basename (childPath dir name) = name := by
  unfold childPath
  split_ifs
  · exact basename_append [] name hn.1 hn.2.2.2
  · exact basename_append dir name hn.1 hn.2.2.2

theorem stripLeading_append (a b : Str) : stripLeading a (a ++ b) = some b := by
  induction a with
  | nil => simp [stripLeading]
  | cons c cs ih => simp [stripLeading, ih]

theorem stripLeading_eq_some (a s b : Str) (h : stripLeading a s = some b) : s = a ++ b := by
  induction a generalizing s with
  | nil => simp [stripLeading] at h; simp [h]
  | cons c cs ih =>
    cases s with
    | nil => simp [stripLeading] at h
    | cons d ds =>
      simp only [stripLeading] at h
      split_ifs at h with hcd
      subst hcd
      simp [ih ds h]

theorem childName_childPath (dir name : Str) (hn : ProperSegment name) :
    childName dir (childPath dir name) = some name := by
  unfold childName childPath
  split_ifs with h
  · subst h
    have := stripLeading_append ['/'] name
    simp only [List.singleton_append] at this
    simp [this, hn]
  · have : dir ++ '/' :: name = (dir ++ ['/']) ++ name := by simp
    rw [this, stripLeading_append]
    simp [hn]

theorem childName_eq_some (dir p name : Str) (h : childName dir p = some name) :
    p = childPath dir name ∧ ProperSegment name := by
  unfold childName at h
  split at h
  · rename_i nm heq
    split_ifs at h with hp
    simp only [Option.some.injEq] at h
    subst h
    refine ⟨?_, hp⟩
    have := stripLeading_eq_some _ _ _ heq
    unfold childPath
    split_ifs with hd
    · rw [if_pos hd] at this; rw [this, hd]; rfl
    · rw [if_neg hd] at this; rw [this]; simp
  · simp at h

theorem childPath_injective (dir a b : Str) (h : childPath dir a = childPath dir b) : a = b := by
  unfold childPath at h
  split_ifs at h <;> simpa using h

theorem replaceRuns_noSlash (b : Bool) (s : Str) (h : '/' ∉ s) : '/' ∉ replaceRuns b s := by
  induction s generalizing b with
  | nil => simp [replaceRuns]
  | cons c cs ih =>
    simp only [List.mem_cons, not_or] at h
    unfold replaceRuns
    split_ifs
    · exact ih true h.2
    · simp only [List.mem_cons, not_or]
      exact ⟨by decide, ih true h.2⟩
    · simp only [List.mem_cons, not_or]
      exact ⟨h.1, ih false h.2⟩

theorem candidateName_noSlash (x : Str) : '/' ∉ candidateName x :=
  replaceRuns_noSlash false _ (basename_noSlash x)

theorem digitChar_ne_slash : ∀ d : Nat, d < 10 → Nat.digitChar d ≠ '/' := by
  decide

theorem toDigitsCore_noSlash (fuel n : Nat) (ds : List Char) (h : '/' ∉ ds) :
    '/' ∉ Nat.toDigitsCore 10 fuel n ds := by
  induction fuel generalizing n ds with
  | zero => simpa [Nat.toDigitsCore] using h
  | succ f ih =>
    simp only [Nat.toDigitsCore]
    split_ifs
    · simp only [List.mem_cons, not_or]
      exact ⟨fun hc => digitChar_ne_slash _ (Nat.mod_lt _ (by decide)) hc.symm, h⟩
    · apply ih
      simp only [List.mem_cons, not_or]
      exact ⟨fun hc => digitChar_ne_slash _ (Nat.mod_lt _ (by decide)) hc.symm, h⟩

theorem numberToString_noSlash (n : Nat) : '/' ∉ numberToString n :=
  toDigitsCore_noSlash _ _ _ (by simp)

theorem stampedName_proper (now : Nat) (c : Str) (hc : '/' ∉ c) :
    ProperSegment (stampedName now c) := by
  have hmem : '_' ∈ stampedName now c := by simp [stampedName]
  refine ⟨?_, ?_, ?_, ?_⟩
  · intro h; rw [h] at hmem; simp at hmem
  · intro h; rw [h] at hmem; simp at hmem
  · intro h; rw [h] at hmem; simp at hmem
  · simp only [stampedName, List.mem_append, List.mem_cons, not_or]
    exact ⟨numberToString_noSlash now, by decide, hc⟩

theorem stampedName_ne (now : Nat) (c : Str) : stampedName now c ≠ c := by
  intro h
  have := congrArg List.length h
  simp [stampedName] at this
  omega

/-! ## File-system lookups and the destination of an upload -/

theorem lookup_cons (q : Str) (n : Node) (rest : FS) (p : Str) :
    lookup ((q, n) :: rest) p = if q = p then some n else lookup rest p := rfl

theorem lookup_remove (fs : FS) (p q : Str) :
    lookup (remove fs p) q = if q = p then none else lookup fs q := by
  induction fs with
  | nil => simp [remove, lookup]
  | cons e rest ih =>
    obtain ⟨k, n⟩ := e
    unfold remove at ih ⊢
    rw [List.filter_cons]
    by_cases hk : k = p
    · subst hk
      simp only [ne_eq, not_true_eq_false, decide_False, Bool.false_eq_true, if_false]
      rw [ih, lookup_cons]
      by_cases hq : q = k
      · simp [hq]
      · have hkq : ¬ k = q := fun h => hq h.symm
        simp [hq, hkq]
    · simp only [ne_eq, hk, not_false_eq_true, decide_True, if_true]
      rw [lookup_cons, lookup_cons, ih]
      by_cases hkq : k = q
      · subst hkq; simp [hk]
      · simp [hkq]

theorem lookup_map_replace (fs : FS) (p q : Str) (n : Node) :
    lookup (fs.map fun e => if e.1 = p then (p, n) else e) q
      = if q = p then (if (lookup fs p).isSome then some n else none) else lookup fs q := by
  induction fs with
  | nil => simp [lookup]
  | cons e rest ih =>
    obtain ⟨k, m⟩ := e
    rw [List.map_cons]
    by_cases hk : k = p
    · subst hk
      simp only [if_true, lookup_cons]
      by_cases hq : q = k
      · subst hq; simp
      · rw [if_neg (fun h => hq h.symm), if_neg hq, if_neg (fun h => hq h.symm), ih, if_neg hq]
    · simp only [hk, if_false, lookup_cons]
      by_cases hkq : k = q
      · subst hkq; simp [hk]
      · rw [if_neg hkq, if_neg hkq, ih]

theorem lookup_append_single (fs : FS) (p q : Str) (n : Node) :
    lookup (fs ++ [(p, n)]) q
      = if (lookup fs q).isSome then lookup fs q else if p = q then some n else none := by
  induction fs with
  | nil => simp [lookup]
  | cons e rest ih =>
    obtain ⟨k, m⟩ := e
    rw [List.cons_append, lookup_cons, lookup_cons, ih]
    by_cases hkq : k = q
    · simp [hkq]
    · simp [hkq]

theorem lookup_write (fs : FS) (p q : Str) (n : Node) :
    lookup (write fs p n) q = if q = p then some n else lookup fs q := by
  unfold write existsSync
  by_cases hex : (lookup fs p).isSome = true
  · rw [if_pos hex, lookup_map_replace, hex]; simp
  · rw [if_neg hex, lookup_append_single]
    by_cases hq : q = p
    · subst hq; simp [hex]
    · have hpq : ¬ p = q := fun h => hq h.symm
      cases hl : lookup fs q <;> simp [hq, hpq]

theorem mem_of_lookup (fs : FS) (p : Str) (n : Node) (h : lookup fs p = some n) :
    (p, n) ∈ fs := by
  induction fs with
  | nil => simp [lookup] at h
  | cons e rest ih =>
    obtain ⟨k, m⟩ := e
    rw [lookup_cons] at h
    by_cases hk : k = p
    · rw [if_pos hk] at h
      simp only [Option.some.injEq] at h
      subst hk; subst h; exact List.mem_cons_self _ _
    · rw [if_neg hk] at h
      exact List.mem_cons_of_mem _ (ih h)

theorem lookup_isSome_of_mem (fs : FS) (p : Str) (n : Node) (h : (p, n) ∈ fs) :
    (lookup fs p).isSome = true := by
  induction fs with
  | nil => simp at h
  | cons e rest ih =>
    obtain ⟨k, m⟩ := e
    rw [lookup_cons]
    by_cases hk : k = p
    · simp [hk]
    · rw [if_neg hk]
      rcases List.mem_cons.1 h with h1 | h1
      · simp only [Prod.mk.injEq] at h1; exact absurd h1.1.symm hk
      · exact ih h1

theorem parent_isDir (fs : FS) (hwf : WellFormed fs) (p : Str)
    (h : existsSync fs p = true) : lookup fs (parentPath p) = some Node.dir := by
  unfold existsSync at h
  obtain ⟨n, hn⟩ := Option.isSome_iff_exists.1 h
  exact hwf (p, n) (mem_of_lookup fs p n hn)

theorem length_joinSlash_dropLast (segs : List Str) :
    (joinSlash segs.dropLast).length ≤ (joinSlash segs).length := by
  rcases List.eq_nil_or_concat segs with h | ⟨init, last, h⟩
  · subst h; simp
  · subst h
    rw [List.concat_eq_append, List.dropLast_concat]
    by_cases hi : init = []
    · subst hi; simp [joinSlash]
    · rw [joinSlash_append_single init last hi]; simp

theorem length_lt_childPath (dir name : Str) (hn : name ≠ []) :
    dir.length < (childPath dir name).length := by
  have : 0 < name.length := List.length_pos.2 hn
  unfold childPath
  split_ifs with h
  · subst h; simp; omega
  · simp

theorem childPath_ne_dir (dir name : Str) (hn : name ≠ []) : childPath dir name ≠ dir := by
  intro h
  have := length_lt_childPath dir name hn
  rw [h] at this
  exact lt_irrefl _ this

theorem childPath_ne_parent (dir name : Str) (hd : Resolved dir) (hn : name ≠ []) :
    childPath dir name ≠ parentPath dir := by
  intro h
  have h1 := length_lt_childPath dir name hn
  obtain ⟨segs, hsegs, rfl⟩ := hd
  rw [h, parentPath_resolved segs hsegs] at h1
  have := length_joinSlash_dropLast segs
  simp at h1
  omega

/-- The candidate name is a proper segment, or the destination is the files
directory or its parent. -/
theorem candidate_cases (dir c : Str) (hd : Resolved dir) (hc : '/' ∉ c) :
    (ProperSegment c ∧ join dir c = childPath dir c) ∨ join dir c = dir ∨
      join dir c = parentPath dir := by
  by_cases hp : ProperSegment c
  · exact Or.inl ⟨hp, join_resolved_proper dir c hd hp⟩
  · right
    unfold ProperSegment at hp
    by_cases h1 : c = []
    · left; rw [h1]; exact join_resolved_nil dir hd
    · by_cases h2 : c = ['.']
      · left; rw [h2]; exact join_resolved_dot dir hd
      · by_cases h3 : c = ['.', '.']
        · right; rw [h3]; rfl
        · exact absurd ⟨h1, h2, h3, hc⟩ hp

theorem finalPath_cases (dir : Str) (fs : FS) (now : Nat) (originalname : Str)
    (hd : Resolved dir) (hwf : WellFormed fs) (hdir : existsSync fs dir = true) :
    (existsSync fs (join dir (candidateName originalname)) = false ∧
      ProperSegment (candidateName originalname) ∧
      finalPath dir fs now originalname = childPath dir (candidateName originalname)) ∨
    (existsSync fs (join dir (candidateName originalname)) = true ∧
      finalPath dir fs now originalname
        = childPath dir (stampedName now (candidateName originalname))) := by
  have hc := candidateName_noSlash originalname
  have hst := stampedName_proper now _ hc
  unfold finalPath
  by_cases hex : existsSync fs (join dir (candidateName originalname)) = true
  · right
    rw [if_pos hex]
    exact ⟨hex, join_resolved_proper dir _ hd hst⟩
  · left
    rw [if_neg hex]
    rcases candidate_cases dir _ hd hc with ⟨hp, hj⟩ | hj | hj
    · exact ⟨by simpa using hex, hp, hj⟩
    · rw [hj] at hex; exact absurd hdir hex
    · rw [hj] at hex
      have := parent_isDir fs hwf dir hdir
      unfold existsSync at hex
      rw [this] at hex
      simp at hex

/-- C8: for every client-supplied original name and every well-formed file
system in which the files directory exists, the destination `finalPath` of the
upload handler is the entry `name` of the files directory (its parent is the
files directory and its base name is `name`), where `name` is a single path
segment: it has no `/`, is not empty and is neither `.` nor `..`.  The working
directory of the process is an absolute path. -/
theorem C8_upload_destination_single_segment (env : ProcessEnv) (fs : FS) (now : Nat)
    (originalname : Str) (hcwd : env.cwd.head? = some '/') (hwf : WellFormed fs)
    (hdir : existsSync fs (FILES_DIR env) = true) :
    ∃ name : Str,
      finalPath (FILES_DIR env) fs now originalname = childPath (FILES_DIR env) name ∧
      parentPath (finalPath (FILES_DIR env) fs now originalname) = FILES_DIR env ∧
      basename (finalPath (FILES_DIR env) fs now originalname) = name ∧
      '/' ∉ name ∧ name ≠ [] ∧ name ≠ ".".toList ∧ name ≠ "..".toList := by
  have hd := FILES_DIR_resolved env hcwd
  have hc := candidateName_noSlash originalname
  rcases finalPath_cases (FILES_DIR env) fs now originalname hd hwf hdir with
    ⟨_, hp, hf⟩ | ⟨_, hf⟩
  · exact ⟨_, hf, by rw [hf]; exact parentPath_childPath _ _ hd hp,
      by rw [hf]; exact basename_childPath _ _ hp, hp.2.2.2, hp.1, hp.2.1, hp.2.2.1⟩
  · have hp := stampedName_proper now _ hc
    exact ⟨_, hf, by rw [hf]; exact parentPath_childPath _ _ hd hp,
      by rw [hf]; exact basename_childPath _ _ hp, hp.2.2.2, hp.1, hp.2.1, hp.2.2.1⟩

/-! ## Relocation of the staged file -/

/-- A relocation of a regular file succeeds when the operating system reports
no error of its own, the target's directory exists and no directory is at the
target. -/
theorem rename_file_ok (host : Host) (fs : FS) (old new : Str) (c : List Nat) (m : Nat)
    (hhost : host.renameError old new = none)
    (hold : lookup fs old = some (Node.file c m))
    (hpar : lookup fs (parentPath new) = some Node.dir) (hne : old ≠ new)
    (hnd : lookup fs new ≠ some Node.dir) :
    rename host fs old new = Except.ok (write (remove fs old) new (Node.file c m)) := by
  unfold rename
  rw [hhost, hold]
  simp only [hpar, if_neg hne]

/-- What a successful relocation of a regular file to another path has done. -/
theorem rename_ok_inv (host : Host) (fs fs2 : FS) (old new : Str) (c : List Nat) (m : Nat)
    (h : rename host fs old new = Except.ok fs2)
    (hold : lookup fs old = some (Node.file c m)) (hne : old ≠ new) :
    fs2 = write (remove fs old) new (Node.file c m) ∧
      lookup fs (parentPath new) = some Node.dir ∧ lookup fs new ≠ some Node.dir := by
  unfold rename at h
  cases hh : host.renameError old new with
  | some code => rw [hh] at h; simp at h
  | none =>
    rw [hh, hold] at h
    simp only at h
    cases h2 : lookup fs (parentPath new) with
    | none => rw [h2] at h; simp at h
    | some k =>
      cases k with
      | file c2 m2 => rw [h2] at h; simp at h
      | dir =>
        rw [h2] at h
        simp only [if_neg hne] at h
        cases h3 : lookup fs new with
        | none =>
          rw [h3] at h
          simp only [Except.ok.injEq] at h
          exact ⟨h.symm, rfl, by simp⟩
        | some j =>
          cases j with
          | dir => rw [h3] at h; simp at h
          | file c3 m3 =>
            rw [h3] at h
            simp only [Except.ok.injEq] at h
            exact ⟨h.symm, rfl, by simp⟩

/-- A relocation onto a directory fails. -/
theorem rename_onto_dir (host : Host) (fs : FS) (old new : Str) (c : List Nat) (m : Nat)
    (hold : lookup fs old = some (Node.file c m))
    (hnew : lookup fs new = some Node.dir) :
    ∃ code, rename host fs old new = Except.error code := by
  cases hr : rename host fs old new with
  | error code => exact ⟨code, rfl⟩
  | ok fs2 =>
    have hne : old ≠ new := by
      intro h; rw [h, hnew] at hold; simp at hold
    exact absurd hnew (rename_ok_inv host fs fs2 old new c m hr hold hne).2.2

/-- The destination of a staged file outside the files directory differs from
the staged path, and the candidate path differs from both. -/
theorem candidate_path_apart (dir : Str) (fs : FS) (old c s : Str) (bytes : List Nat)
    (mtime : Nat) (hd : Resolved dir) (hwf : WellFormed fs)
    (hfd : lookup fs dir = some Node.dir)
    (hstaged : lookup fs old = some (Node.file bytes mtime))
    (hout : childName dir old = none) (hc : '/' ∉ c) (hs : ProperSegment s) (hsc : s ≠ c) :
    join dir c ≠ childPath dir s ∧ join dir c ≠ old := by
  have hex : existsSync fs dir = true := by unfold existsSync; rw [hfd]; rfl
  rcases candidate_cases dir c hd hc with ⟨hp, hj⟩ | hj | hj
  · rw [hj]
    refine ⟨fun h => hsc (childPath_injective dir _ _ h).symm, fun h => ?_⟩
    have := childName_childPath dir c hp
    rw [h, hout] at this
    simp at this
  · rw [hj]
    refine ⟨fun h => childPath_ne_dir dir s hs.1 h.symm, fun h => ?_⟩
    rw [h, hstaged] at hfd; simp at hfd
  · rw [hj]
    refine ⟨fun h => childPath_ne_parent dir s hd hs.1 h.symm, fun h => ?_⟩
    have := parent_isDir fs hwf dir hex
    rw [h, hstaged] at this; simp at this

/-- A staged file outside the files directory is not at an entry of it. -/
theorem staged_ne_child (dir old name : Str) (hout : childName dir old = none)
    (hn : ProperSegment name) : old ≠ childPath dir name := by
  intro h
  have := childName_childPath dir name hn
  rw [← h, hout] at this
  simp at this

/-- C4, as amended: when the candidate path exists and the relocation of the
staged file succeeds, leaving the file system `fs2`, the upload handler answers
`ok: true` with the name `<timestamp>_<candidate>`, which differs from the
candidate, the staged bytes are stored under that name in the files directory,
and the node under the candidate path is unchanged.  The staged file is a
regular file outside the files directory, and the file system is well
formed. -/
theorem C4_collision_keeps_existing (env : ProcessEnv) (host : Host) (fs fs2 : FS) (now : Nat)
    (f : MulterFile) (bytes : List Nat) (mtime : Nat)
    (hcwd : env.cwd.head? = some '/') (hwf : WellFormed fs)
    (hstaged : lookup fs f.path = some (Node.file bytes mtime))
    (hout : childName (FILES_DIR env) f.path = none)
    (hex : existsSync fs (join (FILES_DIR env) (candidateName f.originalname)) = true)
    (hok : rename host fs f.path (finalPath (FILES_DIR env) fs now f.originalname)
      = Except.ok fs2) :
    stampedName now (candidateName f.originalname) ≠ candidateName f.originalname ∧
    uploadHandler host (FILES_DIR env) fs now (some f)
      = (Outcome.respond
          ⟨200, [], Body.ok (stampedName now (candidateName f.originalname))⟩, fs2) ∧
    lookup fs2 (childPath (FILES_DIR env) (stampedName now (candidateName f.originalname)))
      = some (Node.file bytes mtime) ∧
    lookup fs2 (join (FILES_DIR env) (candidateName f.originalname))
      = lookup fs (join (FILES_DIR env) (candidateName f.originalname)) := by
  have hd := FILES_DIR_resolved env hcwd
  have hc := candidateName_noSlash f.originalname
  have hs := stampedName_proper now _ hc
  have hsc := stampedName_ne now (candidateName f.originalname)
  have hfin : finalPath (FILES_DIR env) fs now f.originalname
      = childPath (FILES_DIR env) (stampedName now (candidateName f.originalname)) := by
    unfold finalPath
    rw [if_pos hex]
    exact join_resolved_proper _ _ hd hs
  have hne := staged_ne_child (FILES_DIR env) f.path _ hout hs
  rw [hfin] at hok
  have hup : uploadHandler host (FILES_DIR env) fs now (some f)
      = (Outcome.respond
          ⟨200, [], Body.ok (stampedName now (candidateName f.originalname))⟩, fs2) := by
    simp only [uploadHandler, hfin, hok, basename_childPath _ _ hs]
  obtain ⟨hfs2, hpar, _⟩ := rename_ok_inv host fs fs2 _ _ bytes mtime hok hstaged hne
  rw [parentPath_childPath _ _ hd hs] at hpar
  obtain ⟨h1, h2⟩ := candidate_path_apart (FILES_DIR env) fs f.path _ _ bytes mtime hd hwf hpar
    hstaged hout hc hs hsc
  refine ⟨hsc, hup, ?_, ?_⟩
  · rw [hfs2, lookup_write, if_pos rfl]
  · rw [hfs2, lookup_write, if_neg h1, lookup_remove, if_neg h2]

/-! ## Listing after an upload -/

theorem statSync_congr (fs fs2 : FS) (p : Str) (h : lookup fs2 p = lookup fs p) :
    statSync fs2 p = statSync fs p := by
  unfold statSync; rw [h]

/-- The listing of entries that all exist is the map of their elements. -/
theorem listEntries_eq_map (dir : Str) (ml : Str → Option Str) (fs : FS) (l : List Dirent)
    (h : ∀ e ∈ l, (lookup fs (join dir e.name)).isSome = true) :
    listEntries dir ml fs l
      = Except.ok (l.map fun e => fileInfo dir ml e (statsAt fs (join dir e.name))) := by
  induction l with
  | nil => rfl
  | cons e rest ih =>
    obtain ⟨n, hn⟩ := Option.isSome_iff_exists.1 (h e (List.mem_cons_self _ _))
    have hs : statSync fs (join dir e.name)
        = Except.ok (statsAt fs (join dir e.name)) := by
      unfold statsAt statSync
      rw [hn]
      cases n <;> rfl
    unfold listEntries
    rw [hs, ih (fun x hx => h x (List.mem_cons_of_mem _ hx))]
    rfl

theorem mem_entriesOf (dir : Str) (fs : FS) (e : Dirent) (h : e ∈ entriesOf dir fs) :
    ∃ p n, (p, n) ∈ fs ∧ childName dir p = some e.name := by
  unfold entriesOf at h
  rw [List.mem_filterMap] at h
  obtain ⟨⟨p, n⟩, hmem, hmap⟩ := h
  refine ⟨p, n, hmem, ?_⟩
  cases hc : childName dir p with
  | none => rw [hc] at hmap; simp at hmap
  | some nm =>
    rw [hc] at hmap
    simp only [Option.map_some', Option.some.injEq] at hmap
    rw [← hmap]

theorem entriesOf_remove (dir : Str) (fs : FS) (old : Str) (h : childName dir old = none) :
    entriesOf dir (remove fs old) = entriesOf dir fs := by
  induction fs with
  | nil => rfl
  | cons e rest ih =>
    unfold entriesOf remove at ih ⊢
    rw [List.filter_cons]
    by_cases hk : e.1 = old
    · simp only [ne_eq, hk, not_true_eq_false, decide_False, Bool.false_eq_true, if_false]
      rw [ih, List.filterMap_cons, hk, h]
      rfl
    · simp only [ne_eq, hk, not_false_eq_true, decide_True, if_true]
      rw [List.filterMap_cons, List.filterMap_cons, ih]

theorem entriesOf_append_child (dir : Str) (fs : FS) (name : Str) (n : Node)
    (hn : ProperSegment name) :
    entriesOf dir (fs ++ [(childPath dir name, n)]) = entriesOf dir fs ++ [⟨name, n.isFile⟩] := by
  unfold entriesOf
  rw [List.filterMap_append]
  simp [childName_childPath dir name hn]

theorem write_fresh (fs : FS) (p : Str) (n : Node) (h : existsSync fs p = false) :
    write fs p n = fs ++ [(p, n)] := by
  unfold write; rw [h]; rfl

theorem listed_paths_exist (dir : Str) (fs : FS) (hd : Resolved dir) (e : Dirent)
    (h : e ∈ entriesOf dir fs) :
    (lookup fs (join dir e.name)).isSome = true ∧
      ∃ p, join dir e.name = p ∧ childName dir p = some e.name := by
  obtain ⟨p, n, hmem, hc⟩ := mem_entriesOf dir fs e h
  obtain ⟨hp, hprop⟩ := childName_eq_some dir p e.name hc
  rw [join_resolved_proper dir e.name hd hprop, ← hp]
  exact ⟨lookup_isSome_of_mem fs p n hmem, p, rfl, hc⟩

/-- The listing handler answers with the elements of the regular files of the
directory, in the order of the enumeration. -/
theorem listHandler_eq (host : Host) (dir : Str) (ml : Str → Option Str) (fs : FS)
    (hd : Resolved dir) (hrear : host.Rearranges) (hfd : lookup fs dir = some Node.dir) :
    listHandler host dir ml fs = Outcome.respond ⟨200, [], Body.files
      (((host.enumerate (entriesOf dir fs)).filter fun e => e.isFile).map
        fun e => fileInfo dir ml e (statsAt fs (join dir e.name)))⟩ := by
  unfold listHandler readdir
  rw [hfd]
  simp only
  rw [listEntries_eq_map]
  intro e he
  have hmem : e ∈ entriesOf dir fs := (hrear _).mem_iff.1 (List.mem_of_mem_filter he)
  exact (listed_paths_exist dir fs hd e hmem).1

theorem statsAt_congr (fs fs2 : FS) (p : Str) (h : lookup fs2 p = lookup fs p) :
    statsAt fs2 p = statsAt fs p := by
  unfold statsAt; rw [statSync_congr fs fs2 p h]

/-- C5, as amended: when nothing of any kind exists at the candidate path and
the relocation of the staged file succeeds, leaving the file system `fs2`, the
upload handler answers with the candidate name, and the listing after the
upload has, up to the order in which the directory is enumerated, the entries
of the listing before it and one more: the candidate name, the byte count and
modification time of the staged file, and the type found for the name.  The
files directory exists, the staged file is a regular file outside it, and the
file system is well formed. -/
theorem C5_fresh_upload_is_listed (env : ProcessEnv) (host : Host)
    (mimeLookup : Str → Option Str) (fs fs2 : FS) (now : Nat) (f : MulterFile)
    (bytes : List Nat) (mtime : Nat)
    (hcwd : env.cwd.head? = some '/') (hwf : WellFormed fs) (hrear : host.Rearranges)
    (hfd : lookup fs (FILES_DIR env) = some Node.dir)
    (hstaged : lookup fs f.path = some (Node.file bytes mtime))
    (hout : childName (FILES_DIR env) f.path = none)
    (hfresh : existsSync fs (join (FILES_DIR env) (candidateName f.originalname)) = false)
    (hok : rename host fs f.path (finalPath (FILES_DIR env) fs now f.originalname)
      = Except.ok fs2) :
    ∃ before after : List FileInfo,
      listHandler host (FILES_DIR env) mimeLookup fs
        = Outcome.respond ⟨200, [], Body.files before⟩ ∧
      uploadHandler host (FILES_DIR env) fs now (some f)
        = (Outcome.respond ⟨200, [], Body.ok (candidateName f.originalname)⟩, fs2) ∧
      listHandler host (FILES_DIR env) mimeLookup fs2
        = Outcome.respond ⟨200, [], Body.files after⟩ ∧
      after.Perm (before ++
        [⟨candidateName f.originalname, bytes.length, mtime,
          jsOr (mimeLookup (join (FILES_DIR env) (candidateName f.originalname)))
            octetStream⟩]) := by
  have hd := FILES_DIR_resolved env hcwd
  have hexd : existsSync fs (FILES_DIR env) = true := by unfold existsSync; rw [hfd]; rfl
  rcases finalPath_cases (FILES_DIR env) fs now f.originalname hd hwf hexd with
    ⟨_, hp, hfin⟩ | ⟨hex, _⟩
  swap
  · rw [hfresh] at hex; simp at hex
  have hj := join_resolved_proper _ _ hd hp
  have hne := staged_ne_child (FILES_DIR env) f.path _ hout hp
  have hne2 : childPath (FILES_DIR env) (candidateName f.originalname) ≠ f.path :=
    fun h => hne h.symm
  have hnone : lookup fs (childPath (FILES_DIR env) (candidateName f.originalname)) = none := by
    rw [hj] at hfresh
    unfold existsSync at hfresh
    simpa using hfresh
  rw [hfin] at hok
  have hup : uploadHandler host (FILES_DIR env) fs now (some f)
      = (Outcome.respond ⟨200, [], Body.ok (candidateName f.originalname)⟩, fs2) := by
    simp only [uploadHandler, hfin, hok, basename_childPath _ _ hp]
  obtain ⟨hfs2, _, _⟩ := rename_ok_inv host fs fs2 _ _ bytes mtime hok hstaged hne
  have hfresh2 : existsSync (remove fs f.path)
      (childPath (FILES_DIR env) (candidateName f.originalname)) = false := by
    unfold existsSync
    rw [lookup_remove, if_neg hne2, hnone]; rfl
  rw [write_fresh _ _ _ hfresh2] at hfs2
  -- lookups after the upload
  have hfp : FILES_DIR env ≠ f.path := by
    intro h; rw [h, hstaged] at hfd; simp at hfd
  have hfd2 : lookup fs2 (FILES_DIR env) = some Node.dir := by
    rw [hfs2, lookup_append_single, lookup_remove, if_neg hfp, hfd]; rfl
  have hnew : lookup fs2 (childPath (FILES_DIR env) (candidateName f.originalname))
      = some (Node.file bytes mtime) := by
    rw [hfs2]
    simp [lookup_append_single, lookup_remove, hnone, hne2]
  have hent : entriesOf (FILES_DIR env) fs2
      = entriesOf (FILES_DIR env) fs ++ [⟨candidateName f.originalname, true⟩] := by
    rw [hfs2, entriesOf_append_child _ _ _ _ hp, entriesOf_remove _ _ _ hout]
    rfl
  refine ⟨_, _, listHandler_eq host _ mimeLookup fs hd hrear hfd, hup,
    listHandler_eq host _ mimeLookup fs2 hd hrear hfd2, ?_⟩
  rw [hent]
  -- the files of the new enumeration are those of the old one and the new entry
  have hperm : ((host.enumerate (entriesOf (FILES_DIR env) fs ++
        [⟨candidateName f.originalname, true⟩])).filter fun e => e.isFile).Perm
      (((host.enumerate (entriesOf (FILES_DIR env) fs)).filter fun e => e.isFile) ++
        [⟨candidateName f.originalname, true⟩]) := by
    refine ((hrear _).filter _).trans ?_
    rw [List.filter_append]
    exact List.Perm.append (((hrear _).filter _).symm) (by simp)
  refine (hperm.map _).trans ?_
  rw [List.map_append]
  refine List.Perm.of_eq ?_
  congr 1
  · apply List.map_congr_left
    intro e he
    have hmem : e ∈ entriesOf (FILES_DIR env) fs :=
      (hrear _).mem_iff.1 (List.mem_of_mem_filter he)
    obtain ⟨hsome, p, hp1, hp2⟩ := listed_paths_exist _ fs hd e hmem
    have hpo : join (FILES_DIR env) e.name ≠ f.path := by
      intro h; rw [hp1] at h; rw [h, hout] at hp2; simp at hp2
    have hl : lookup fs2 (join (FILES_DIR env) e.name)
        = lookup fs (join (FILES_DIR env) e.name) := by
      rw [hfs2, lookup_append_single, lookup_remove, if_neg hpo, hsome]
      rfl
    simp only [statsAt_congr fs fs2 _ hl]
  · simp only [List.map_cons, List.map_nil, fileInfo, statsAt, statSync, hj, hnew]

/-! ## The API key middleware, the pipeline and the file filter -/

theorem jsOr_ne_nil (v : Option Str) (d : Str) (hd : d ≠ []) : jsOr v d ≠ [] := by
  unfold jsOr
  split
  · split_ifs with h
    · exact hd
    · exact h
  · exact hd

theorem API_KEY_ne_nil (env : ProcessEnv) : API_KEY env ≠ [] :=
  jsOr_ne_nil _ _ (by decide)

/-- C1: for every environment and every value of the `x-api-key` header, the
API key middleware calls the next stage, writing no response, exactly when the
header equals the configured secret; in every other case (header absent or
different) it answers 401 with the body `error: "unauthorized"` and does not
call the next stage. -/
theorem C1_api_key_guard (env : ProcessEnv) (key : Option Str) :
    apiKeyGuard (API_KEY env) key =
      if key = some (API_KEY env) then Step.next
      else Step.send ⟨401, [], Body.error "unauthorized".toList⟩ := by
  have hne := API_KEY_ne_nil env
  cases key with
  | none => simp [apiKeyGuard, unauthorized]
  | some k =>
    by_cases hk : k = API_KEY env
    · subst hk; simp [apiKeyGuard, hne]
    · simp [apiKeyGuard, hk, unauthorized]

theorem guard_rejects (env : ProcessEnv) (key : Option Str) (h : key ≠ some (API_KEY env)) :
    apiKeyGuard (API_KEY env) key = Step.send unauthorized := by
  cases key with
  | none => rfl
  | some k =>
    have hk : k ≠ API_KEY env := fun hk => h (by rw [hk])
    simp [apiKeyGuard, hk]

theorem guard_accepts (env : ProcessEnv) :
    apiKeyGuard (API_KEY env) (some (API_KEY env)) = Step.next := by
  simp [apiKeyGuard, API_KEY_ne_nil env]

/-- C2, as amended: for every request without the correct API key, the
pipeline leaves the file system unchanged, and it answers 401 with the body
`error: "unauthorized"` whenever the request is not of method OPTIONS (which
`cors` answers itself) and `express.json` does not reject its body. -/
theorem C2_unauthorized_request (env : ProcessEnv) (host : Host)
    (mimeLookup : Str → Option Str) (reportedType : Str → Str) (stagingName : Str) (now : Nat)
    (req : Request) (fs : FS) (hkey : req.apiKey ≠ some (API_KEY env)) :
    (app env host mimeLookup reportedType stagingName now req fs).2 = fs ∧
    (req.method ≠ "OPTIONS".toList → req.jsonError = none →
      (app env host mimeLookup reportedType stagingName now req fs).1
        = Outcome.respond ⟨401, [], Body.error "unauthorized".toList⟩) := by
  have hg := guard_rejects env req.apiKey hkey
  constructor
  · unfold app cors expressJson
    split_ifs
    · rfl
    · cases req.jsonError with
      | some m => rfl
      | none => simp only [hg]
  · intro hm hj
    unfold app cors expressJson
    rw [if_neg hm, hj]
    simp only [hg]
    rfl

theorem testImage_iff (s : Str) : testImage s = true ↔ "image/".toList <+: s := by
  constructor
  · intro h
    unfold testImage at h
    split at h
    · exact ⟨_, rfl⟩
    · simp at h
  · rintro ⟨t, rfl⟩
    rfl

theorem fileFilter_accepts_iff (mimetype : Str) :
    fileFilter mimetype = Except.ok true ↔
      ("image/".toList <+: mimetype ∨ mimetype = "application/octet-stream".toList) := by
  rw [← testImage_iff]
  unfold fileFilter octetStream
  by_cases h1 : testImage mimetype = true
  · simp [h1]
  · by_cases h2 : mimetype = "application/octet-stream".toList
    · simp [h2]
    · simp [h1, h2]

theorem fileFilter_rejects (mimetype : Str)
    (h : ¬ ("image/".toList <+: mimetype ∨ mimetype = "application/octet-stream".toList)) :
    fileFilter mimetype = Except.error "Unsupported mime type".toList := by
  rw [← testImage_iff] at h
  simp only [not_or] at h
  unfold fileFilter octetStream
  rw [show testImage mimetype = false from by simpa using h.1, decide_eq_false h.2]
  rfl

/-- C6, as amended: the file filter accepts a type exactly when it starts
with `image/` or is `application/octet-stream`; for every other type the filter
signals `Unsupported mime type`, and an authorised upload request whose part
is reported by multer with that type in `file.mimetype` is answered with status
400 and a JSON error body while the file system, the files directory included,
is left unchanged. -/
theorem C6_unsupported_type_rejected (mimetype : Str) :
    (fileFilter mimetype = Except.ok true ↔
      ("image/".toList <+: mimetype ∨ mimetype = "application/octet-stream".toList)) ∧
    (¬ ("image/".toList <+: mimetype ∨ mimetype = "application/octet-stream".toList) →
      fileFilter mimetype = Except.error "Unsupported mime type".toList ∧
      ∀ (env : ProcessEnv) (host : Host) (mimeLookup : Str → Option Str)
        (reportedType : Str → Str) (stagingName : Str) (now : Nat)
        (req : Request) (fs : FS) (part : FilePart),
        req.method ≠ "OPTIONS".toList → req.jsonError = none →
        req.apiKey = some (API_KEY env) → req.route = Route.upload →
        req.file = some part → reportedType part.contentType = mimetype →
        ∃ message, app env host mimeLookup reportedType stagingName now req fs
          = (Outcome.respond ⟨400, [], Body.error message⟩, fs)) := by
  refine ⟨fileFilter_accepts_iff mimetype, fun h => ⟨fileFilter_rejects mimetype h, ?_⟩⟩
  intro env host ml rt sn now req fs part hm hj hk hr hf hmt
  have hrej := fileFilter_rejects mimetype h
  unfold app cors expressJson
  rw [if_neg hm, hj, hk]
  simp only [guard_accepts, hr, hf]
  unfold uploadSingle
  by_cases hn : partFileName part.filename = []
  · simp only [hn, if_true]
    exact ⟨_, rfl⟩
  · simp only [hn, if_false, hmt, hrej]
    exact ⟨_, rfl⟩

/-! ## The handlers case by case -/

/-- The download handler answers 404 when nothing exists at its path. -/
theorem downloadHandler_missing (dir : Str) (ml : Str → Option Str) (fs : FS) (name : Str)
    (h : lookup fs (downloadPath dir name) = none) :
    downloadHandler dir ml fs name
      = Outcome.respond ⟨404, [], Body.error "not found".toList⟩ := by
  simp [downloadHandler, existsSync, h]

/-- The download handler streams a regular file with the two headers, when
`setHeader` accepts their values. -/
theorem downloadHandler_file (dir : Str) (ml : Str → Option Str) (fs : FS) (name : Str)
    (c : List Nat) (m : Nat) (h : lookup fs (downloadPath dir name) = some (Node.file c m))
    (hv : (downloadHeaders dir ml name).findSome? (fun h => setHeaderError h.1 h.2) = none) :
    downloadHandler dir ml fs name
      = Outcome.respond ⟨200, downloadHeaders dir ml name, Body.stream c⟩ := by
  simp [downloadHandler, existsSync, createReadStream, h, hv]

/-- The download handler answers 400 when `setHeader` rejects a header value. -/
theorem downloadHandler_invalid_header (dir : Str) (ml : Str → Option Str) (fs : FS)
    (name message : Str) (h : existsSync fs (downloadPath dir name) = true)
    (hv : (downloadHeaders dir ml name).findSome? (fun h => setHeaderError h.1 h.2)
      = some message) :
    downloadHandler dir ml fs name = Outcome.respond ⟨400, [], Body.error message⟩ := by
  simp [downloadHandler, h, hv, errorHandler]

/-- The download handler lets the stream error escape when its path is a directory. -/
theorem downloadHandler_dir (dir : Str) (ml : Str → Option Str) (fs : FS) (name : Str)
    (h : lookup fs (downloadPath dir name) = some Node.dir)
    (hv : (downloadHeaders dir ml name).findSome? (fun h => setHeaderError h.1 h.2) = none) :
    downloadHandler dir ml fs name = Outcome.uncaught "EISDIR".toList := by
  simp [downloadHandler, existsSync, createReadStream, h, hv]

/-- The listing handler answers 500 when the files directory cannot be read. -/
theorem listHandler_unreadable (host : Host) (dir : Str) (ml : Str → Option Str) (fs : FS)
    (h : lookup fs dir ≠ some Node.dir) :
    listHandler host dir ml fs
      = Outcome.respond ⟨500, [], Body.error "cannot list".toList⟩ := by
  unfold listHandler readdir
  cases hl : lookup fs dir with
  | none => rfl
  | some n =>
    cases n with
    | dir => exact absurd hl h
    | file c m => rfl

/-- The upload handler answers 500 and stores nothing when the relocation fails. -/
theorem uploadHandler_relocation_failure (host : Host) (dir : Str) (fs : FS) (now : Nat)
    (f : MulterFile) (code : Str)
    (h : rename host fs f.path (finalPath dir fs now f.originalname) = Except.error code) :
    uploadHandler host dir fs now (some f)
      = (Outcome.respond ⟨500, [], Body.error "cannot move".toList⟩, fs) := by
  simp [uploadHandler, h]

/-- A relocation changes no path other than its source and its target. -/
theorem rename_frame (host : Host) (fs fs2 : FS) (old new q : Str)
    (h : rename host fs old new = Except.ok fs2)
    (hold : q ≠ old) (hnew : q ≠ new) : lookup fs2 q = lookup fs q := by
  by_cases he : old = new
  · unfold rename at h
    cases hh : host.renameError old new with
    | some code => rw [hh] at h; simp at h
    | none =>
      rw [hh] at h
      simp only at h
      cases h1 : lookup fs old with
      | none => rw [h1] at h; simp at h
      | some n =>
        cases n with
        | dir => rw [h1] at h; simp at h
        | file c m =>
          rw [h1] at h
          simp only at h
          cases h2 : lookup fs (parentPath new) with
          | none => rw [h2] at h; simp at h
          | some k =>
            cases k with
            | file c2 m2 => rw [h2] at h; simp at h
            | dir =>
              rw [h2] at h
              simp only [if_pos he, Except.ok.injEq] at h
              rw [← h]
  · unfold rename at h
    cases hh : host.renameError old new with
    | some code => rw [hh] at h; simp at h
    | none =>
      cases h1 : lookup fs old with
      | none => rw [hh, h1] at h; simp at h
      | some n =>
        cases n with
        | dir => rw [hh, h1] at h; simp at h
        | file c m =>
          have hr : rename host fs old new = Except.ok fs2 := by
            unfold rename; exact h
          obtain ⟨hfs2, _, _⟩ := rename_ok_inv host fs fs2 old new c m hr h1 he
          rw [hfs2, lookup_write, if_neg hnew, lookup_remove, if_neg hold]

/-- An upload changes no path other than the staged path and its destination. -/
theorem uploadHandler_frame (host : Host) (dir : Str) (fs : FS) (now : Nat) (f : MulterFile)
    (q : Str) (hold : q ≠ f.path) (hnew : q ≠ finalPath dir fs now f.originalname) :
    lookup (uploadHandler host dir fs now (some f)).2 q = lookup fs q := by
  cases h : rename host fs f.path (finalPath dir fs now f.originalname) with
  | error code => simp only [uploadHandler, h]
  | ok fs2 =>
    simp only [uploadHandler, h]
    exact rename_frame host fs fs2 _ _ q h hold hnew

/-! ## Evaluations on the sample data -/

/-- C2 fails as stated: a request of method OPTIONS without the API key is
answered 204 by `cors`, before the API key middleware is reached. -/
theorem C2_preflight_is_answered_without_key :
    preflightRequest.apiKey ≠ some (API_KEY sampleEnv) ∧
    (app sampleEnv sampleHost sampleMime lowerCaseType "f3a9".toList 1000 preflightRequest
      sampleFS).1 = Outcome.respond ⟨204, [], Body.empty⟩ := by
  decide

/-- The amended C2 at a `GET /files` request without the header. -/
theorem C2_unauthorized_request_witness :
    anonymousList.apiKey ≠ some (API_KEY sampleEnv) ∧
    (app sampleEnv sampleHost sampleMime lowerCaseType "f3a9".toList 1000 anonymousList
      sampleFS).2 = sampleFS ∧
    (anonymousList.method ≠ "OPTIONS".toList → anonymousList.jsonError = none →
      (app sampleEnv sampleHost sampleMime lowerCaseType "f3a9".toList 1000 anonymousList
        sampleFS).1 = Outcome.respond ⟨401, [], Body.error "unauthorized".toList⟩) :=
  ⟨by decide, C2_unauthorized_request sampleEnv sampleHost sampleMime lowerCaseType
    "f3a9".toList 1000 anonymousList sampleFS (by decide)⟩

/-- C3 on the code: the requested name `..` makes the download handler check
the parent of the files directory, which exists and is not an entry of the
files directory; the name `.` makes it check the files directory itself. -/
theorem C3_parent_reference_leaves_files_directory :
    FILES_DIR sampleEnv = "/srv/app/files".toList ∧
    downloadPath (FILES_DIR sampleEnv) "..".toList = "/srv/app".toList ∧
    downloadPath (FILES_DIR sampleEnv) ".".toList = "/srv/app/files".toList ∧
    childName (FILES_DIR sampleEnv) (downloadPath (FILES_DIR sampleEnv) "..".toList) = none ∧
    existsSync sampleFS (downloadPath (FILES_DIR sampleEnv) "..".toList) = true := by
  decide

/-- C7 on the code: no regular file is stored under `sub` or `..`, yet the
download handler does not answer 404: the path exists as a directory, and the
read stream fails without a listener.  The name `../../etc/passwd` is reduced
to `passwd` and answered 404. -/
theorem C7_directory_is_not_answered_404 :
    lookup sampleFS (childPath (FILES_DIR sampleEnv) "sub".toList) = some Node.dir ∧
    downloadHandler (FILES_DIR sampleEnv) sampleMime sampleFS "sub".toList
      = Outcome.uncaught "EISDIR".toList ∧
    downloadHandler (FILES_DIR sampleEnv) sampleMime sampleFS "..".toList
      = Outcome.uncaught "EISDIR".toList ∧
    downloadHandler (FILES_DIR sampleEnv) sampleMime sampleFS "../../etc/passwd".toList
      = Outcome.respond ⟨404, [], Body.error "not found".toList⟩ := by
  decide

/-- C9 on the code: with `a.png` and `1000_a.png` both stored, an upload of
`a.png` at clock value 1000 succeeds under the name `1000_a.png` and replaces
the bytes stored there. -/
theorem C9_second_collision_overwrites :
    lookup collisionFS "/srv/app/files/a.png".toList = some (Node.file [1, 2, 3] 5) ∧
    lookup collisionFS "/srv/app/files/1000_a.png".toList = some (Node.file [4, 5] 6) ∧
    (uploadHandler sampleHost (FILES_DIR sampleEnv) collisionFS 1000
        (some (stagedUpload "a.png".toList))).1
      = Outcome.respond ⟨200, [], Body.ok "1000_a.png".toList⟩ ∧
    lookup (uploadHandler sampleHost (FILES_DIR sampleEnv) collisionFS 1000
        (some (stagedUpload "a.png".toList))).2 "/srv/app/files/1000_a.png".toList
      = some (Node.file [0, 1, 2, 3, 4, 5, 6, 7, 8, 9] 9) := by
  decide

/-- C10 on the code: an authorised download whose path is a directory ends
with the `EISDIR` error of the read stream escaping every handler, not with a
response. -/
theorem C10_stream_error_is_uncaught :
    app sampleEnv sampleHost sampleMime lowerCaseType "f3a9".toList 1000
        (authorizedDownload ".".toList) sampleFS
      = (Outcome.uncaught "EISDIR".toList, sampleFS) ∧
    app sampleEnv sampleHost sampleMime lowerCaseType "f3a9".toList 1000
        (authorizedDownload "sub".toList) sampleFS
      = (Outcome.uncaught "EISDIR".toList, sampleFS) := by
  decide

/-- C4 fails as stated: with `a.png` stored and a directory under
`1000_a.png`, the upload of `a.png` at clock value 1000 is answered 500 and
nothing is stored. -/
theorem C4_relocation_onto_directory_fails :
    existsSync blockedFS (join (FILES_DIR sampleEnv) (candidateName "a.png".toList)) = true ∧
    uploadHandler sampleHost (FILES_DIR sampleEnv) blockedFS 1000
        (some (stagedUpload "a.png".toList))
      = (Outcome.respond ⟨500, [], Body.error "cannot move".toList⟩, blockedFS) ∧
    lookup blockedFS "/srv/app/files/1000_a.png".toList = some Node.dir := by
  decide

/-- C5 fails as stated: no regular file is stored under `sub` (a directory
is), and the upload of `sub` is answered with the name `1000_sub`; the listing
after it has an entry `1000_sub` and none named `sub`. -/
theorem C5_directory_name_is_stamped :
    lookup sampleFS "/srv/app/files/sub".toList = some Node.dir ∧
    candidateName "sub".toList = "sub".toList ∧
    (uploadHandler sampleHost (FILES_DIR sampleEnv) sampleFS 1000
        (some (stagedUpload "sub".toList))).1
      = Outcome.respond ⟨200, [], Body.ok "1000_sub".toList⟩ ∧
    ∃ entries : List FileInfo,
      listHandler sampleHost (FILES_DIR sampleEnv) sampleMime
          (uploadHandler sampleHost (FILES_DIR sampleEnv) sampleFS 1000
            (some (stagedUpload "sub".toList))).2
        = Outcome.respond ⟨200, [], Body.files entries⟩ ∧
      (⟨"1000_sub".toList, 10, 9, "application/octet-stream".toList⟩ : FileInfo) ∈ entries ∧
      ∀ e ∈ entries, e.name ≠ "sub".toList :=
  ⟨by decide, by decide, by decide,
    [⟨"1000_sub".toList, 10, 9, "application/octet-stream".toList⟩,
      ⟨"a.png".toList, 3, 5, "image/png".toList⟩], by decide, by decide, by decide⟩

/-- C6 fails as stated: a part declared as `IMAGE/PNG`, which neither starts
with `image/` nor is `application/octet-stream`, is reported by the multipart
parser as `image/png`, passes the filter and is stored. -/
theorem C6_upper_case_type_is_stored :
    ¬ ("image/".toList <+: "IMAGE/PNG".toList ∨
      "IMAGE/PNG".toList = "application/octet-stream".toList) ∧
    upperCaseUpload.file
      = some ⟨"photo.png".toList, "IMAGE/PNG".toList, [7, 7, 7]⟩ ∧
    (app sampleEnv sampleHost sampleMime lowerCaseType "c0de".toList 1000 upperCaseUpload
      sampleFS).1 = Outcome.respond ⟨200, [], Body.ok "photo.png".toList⟩ ∧
    lookup (app sampleEnv sampleHost sampleMime lowerCaseType "c0de".toList 1000
      upperCaseUpload sampleFS).2 "/srv/app/files/photo.png".toList
      = some (Node.file [7, 7, 7] 1000) := by
  decide

/-- C8 at the original name `x/..` on the sample file system. -/
theorem C8_upload_destination_witness :
    sampleEnv.cwd.head? = some '/' ∧ WellFormed sampleFS ∧
    existsSync sampleFS (FILES_DIR sampleEnv) = true ∧
    ∃ name : Str,
      finalPath (FILES_DIR sampleEnv) sampleFS 1000 "x/..".toList
        = childPath (FILES_DIR sampleEnv) name ∧
      parentPath (finalPath (FILES_DIR sampleEnv) sampleFS 1000 "x/..".toList)
        = FILES_DIR sampleEnv ∧
      basename (finalPath (FILES_DIR sampleEnv) sampleFS 1000 "x/..".toList) = name ∧
      '/' ∉ name ∧ name ≠ [] ∧ name ≠ ".".toList ∧ name ≠ "..".toList :=
  ⟨by decide, by decide, by decide,
    C8_upload_destination_single_segment sampleEnv sampleFS 1000 "x/..".toList
      (by decide) (by decide) (by decide)⟩

/-- The amended C4 at the upload of `a.png` over the stored `a.png`. -/
theorem C4_collision_keeps_existing_witness :
    sampleEnv.cwd.head? = some '/' ∧ WellFormed sampleFS ∧
    lookup sampleFS (stagedUpload "a.png".toList).path
      = some (Node.file [0, 1, 2, 3, 4, 5, 6, 7, 8, 9] 9) ∧
    existsSync sampleFS (join (FILES_DIR sampleEnv)
      (candidateName (stagedUpload "a.png".toList).originalname)) = true ∧
    rename sampleHost sampleFS (stagedUpload "a.png".toList).path
        (finalPath (FILES_DIR sampleEnv) sampleFS 1000
          (stagedUpload "a.png".toList).originalname)
      = Except.ok (storedFS "1000_a.png".toList) ∧
    uploadHandler sampleHost (FILES_DIR sampleEnv) sampleFS 1000
        (some (stagedUpload "a.png".toList))
      = (Outcome.respond ⟨200, [], Body.ok (stampedName 1000
          (candidateName (stagedUpload "a.png".toList).originalname))⟩,
        storedFS "1000_a.png".toList) ∧
    lookup (storedFS "1000_a.png".toList) "/srv/app/files/a.png".toList
      = some (Node.file [1, 2, 3] 5) :=
  ⟨by decide, by decide, by decide, by decide, rfl,
    (C4_collision_keeps_existing sampleEnv sampleHost sampleFS (storedFS "1000_a.png".toList)
      1000 (stagedUpload "a.png".toList) [0, 1, 2, 3, 4, 5, 6, 7, 8, 9] 9
      (by decide) (by decide) (by decide) (by decide) (by decide) rfl).2.1,
    by decide⟩

/-- The amended C5 at the upload of ten bytes as `a b.png`: the response name
is `a_b.png` and the listing gains the entry of that name, size 10 and type
`image/png`. -/
theorem C5_fresh_upload_is_listed_witness :
    existsSync sampleFS (join (FILES_DIR sampleEnv)
      (candidateName (stagedUpload "a b.png".toList).originalname)) = false ∧
    rename sampleHost sampleFS (stagedUpload "a b.png".toList).path
        (finalPath (FILES_DIR sampleEnv) sampleFS 1000
          (stagedUpload "a b.png".toList).originalname)
      = Except.ok (storedFS "a_b.png".toList) ∧
    candidateName (stagedUpload "a b.png".toList).originalname = "a_b.png".toList ∧
    jsOr (sampleMime (join (FILES_DIR sampleEnv)
      (candidateName (stagedUpload "a b.png".toList).originalname))) octetStream
      = "image/png".toList ∧
    ∃ before after : List FileInfo,
      listHandler sampleHost (FILES_DIR sampleEnv) sampleMime sampleFS
        = Outcome.respond ⟨200, [], Body.files before⟩ ∧
      uploadHandler sampleHost (FILES_DIR sampleEnv) sampleFS 1000
          (some (stagedUpload "a b.png".toList))
        = (Outcome.respond ⟨200, [], Body.ok
            (candidateName (stagedUpload "a b.png".toList).originalname)⟩,
          storedFS "a_b.png".toList) ∧
      listHandler sampleHost (FILES_DIR sampleEnv) sampleMime (storedFS "a_b.png".toList)
        = Outcome.respond ⟨200, [], Body.files after⟩ ∧
      after.Perm (before ++
        [⟨candidateName (stagedUpload "a b.png".toList).originalname,
          [0, 1, 2, 3, 4, 5, 6, 7, 8, 9].length, 9,
          jsOr (sampleMime (join (FILES_DIR sampleEnv)
            (candidateName (stagedUpload "a b.png".toList).originalname))) octetStream⟩]) :=
  ⟨by decide, rfl, by decide, by decide,
    C5_fresh_upload_is_listed sampleEnv sampleHost sampleMime sampleFS
      (storedFS "a_b.png".toList) 1000 (stagedUpload "a b.png".toList)
      [0, 1, 2, 3, 4, 5, 6, 7, 8, 9] 9
      (by decide) (by decide) (fun l => List.reverse_perm l) (by decide) (by decide)
      (by decide) (by decide) rfl⟩

/-- The amended C6 at a part reported with the type `text/plain`. -/
theorem C6_unsupported_type_rejected_witness :
    ¬ ("image/".toList <+: "text/plain".toList ∨
      "text/plain".toList = "application/octet-stream".toList) ∧
    fileFilter "text/plain".toList = Except.error "Unsupported mime type".toList ∧
    ∃ message, app sampleEnv sampleHost sampleMime lowerCaseType "f3a9".toList 1000
        textUpload sampleFS
      = (Outcome.respond ⟨400, [], Body.error message⟩, sampleFS) :=
  ⟨by decide,
    ((C6_unsupported_type_rejected "text/plain".toList).2 (by decide)).1,
    ((C6_unsupported_type_rejected "text/plain".toList).2 (by decide)).2
      sampleEnv sampleHost sampleMime lowerCaseType "f3a9".toList 1000 textUpload sampleFS
      ⟨"notes.txt".toList, "text/plain".toList, [104, 105]⟩
      (by decide) (by decide) (by decide) (by decide) (by decide) (by decide)⟩

end UploadFiles
